import Mathlib

/-!
# Register mirror access layer of `sdb` (`src/registers.cpp`)

A shallow embedding of `sdb::registers` (`read`, `write`, `flush`,
`is_undefined`, `undefine`) and of the file-local helper `widen`.

* The mirror `data_` (the kernel's `user` structure seen through `as_bytes`) is a
  list of bytes. Every access through a pointer into it, and into the 16-byte
  object `widen` returns, is checked: an access outside the buffer (undefined
  behaviour in the source) ends the function with `out_of_bounds`. The statements
  below exclude it by hypotheses: the descriptor lies inside the mirror, is no
  longer than 16 bytes, and the mirror is a whole number of 8-byte words, as
  `user` is.
* The calls made on the process object `proc_` are recorded, in order, as a list
  of `proc_call`; they are taken to return.
* `sdb::error::send` is taken to throw, and `std::terminate` to end the function.
* Declarations that live in headers outside `src/` (`register_info_by_id`, the
  layout of `user`, `to_byte128`, `from_bytes`) and the floating point conversions
  of the hardware are parameters or are modelled from the spec, as marked.
* Integers are little-endian and `long double` is the 16-byte x87 type: the code
  is specific to x86-64 Linux (`user`, `i387`, `u_debugreg`).
-/

deriving instance DecidableEq for Except

set_option maxRecDepth 100000

namespace sdb

/-! ## Bytes and little-endian encoding -/

/-- One `std::byte`. -/
abbrev byte := Fin 256

/-- The zero byte. -/
def zero_byte : byte := ⟨0, by decide⟩

/-- The `n` low bytes of `v`, least significant first (x86-64 is little-endian):
the object representation of an `n`-byte integer whose bit pattern is `v % 2^(8n)`. -/
def to_le : Nat → Nat → List byte
  | 0, _ => []
  | n + 1, v => ⟨v % 256, Nat.mod_lt _ (by decide)⟩ :: to_le n (v / 256)

/-- The number whose little-endian representation is the given byte string. -/
def from_le : List byte → Nat
  | [] => 0
  | b :: bs => b.val + 256 * from_le bs

/-- The bit pattern, on `8 * n` bits, of the two's-complement integer `v`
(what `static_cast` to an `n`-byte signed type keeps of `v`). -/
def twos (n : Nat) (v : Int) : Nat := (v % (2 ^ (8 * n) : Int)).toNat

/-- The `n` bytes at `p + off` for a pointer `p` to the start of the buffer `bs`;
`none` when they do not all lie inside the buffer. -/
def bytes_at (bs : List byte) (off n : Nat) : Option (List byte) :=
  if off + n ≤ bs.length then some ((bs.drop off).take n) else none

/-! ## Register metadata (`libsdb/register_info.hpp`, not part of `src/`) -/

/-- The enumeration `register_id`; its enumerators are identified with numbers. -/
abbrev register_id := Nat

/-- Modelled from the spec: the enumeration `register_type` of
`libsdb/register_info.hpp` (general purpose, floating point, debug); the source
names `fpr` only. -/
inductive register_type where
  | gpr
  | fpr
  | dr
deriving DecidableEq, Repr

/-- The enumeration `register_format`; the four enumerators `read` and `widen`
name. -/
inductive register_format where
  | uint
  | double_float
  | long_double
  | vector
deriving DecidableEq, Repr

/-- Modelled from the spec: the descriptor `register_info` of
`libsdb/register_info.hpp`, with the fields the spec lists. `size` and `offset`
are byte counts. -/
structure register_info where
  id : register_id
  name : String
  type : register_type
  format : register_format
  size : Nat
  offset : Nat
deriving DecidableEq, Repr

/-- The register table: `register_info_by_id`, and the enumerator
`register_id::dr0`. Both are declared outside `src/` and are parameters here. -/
structure register_table where
  register_info_by_id : register_id → register_info
  dr0 : register_id

/-- Where the members `regs`, `i387` and `u_debugreg` of the kernel's `user`
structure lie inside it (byte offsets and byte sizes; `u_debugreg` is an array of
eight 8-byte words). The structure comes from `<sys/user.h>` and is a parameter. -/
structure user_layout where
  regs_offset : Nat
  regs_size : Nat
  i387_offset : Nat
  i387_size : Nat
  u_debugreg_offset : Nat

/-- The conversions `static_cast<double>` and `static_cast<long double>` perform
between floating point types, on bit patterns, and the six bytes that pad the
80-bit `long double` to its 16-byte object: hardware behaviour, a parameter. -/
structure float_model where
  float_to_double : Nat → Nat
  float_to_long_double : Nat → Nat
  double_to_long_double : Nat → Nat
  long_double_to_double : Nat → Nat
  long_double_padding : Nat

/-! ## Register values (`sdb::registers::value`) -/

/-- Modelled from the spec: the variant `sdb::registers::value` of
`libsdb/registers.hpp`. Unsigned integers carry their value, signed integers
their (mathematical) value, floating point numbers their bit pattern, and the two
vector types (`byte64`, 8 bytes; `byte128`, 16 bytes) their bytes. -/
inductive value where
  | u8 (v : Nat)
  | u16 (v : Nat)
  | u32 (v : Nat)
  | u64 (v : Nat)
  | i8 (v : Int)
  | i16 (v : Int)
  | i32 (v : Int)
  | i64 (v : Int)
  | f32 (bits : Nat)
  | f64 (bits : Nat)
  | f80 (bits : Nat)
  | b64 (bytes : List byte)
  | b128 (bytes : List byte)
deriving DecidableEq, Repr

/-- Exactly `n` bytes: the first `n` of `bs`, zero-filled when `bs` is shorter. -/
def fit (n : Nat) (bs : List byte) : List byte :=
  (bs ++ List.replicate n zero_byte).take n

/-- The value of `sizeof(v)` for the active alternative (x86-64 System V:
`long double` occupies 16 bytes). -/
def value.sizeof : value → Nat
  | .u8 _ => 1
  | .u16 _ => 2
  | .u32 _ => 4
  | .u64 _ => 8
  | .i8 _ => 1
  | .i16 _ => 2
  | .i32 _ => 4
  | .i64 _ => 8
  | .f32 _ => 4
  | .f64 _ => 8
  | .f80 _ => 16
  | .b64 _ => 8
  | .b128 _ => 16

/-- The bytes that carry the value of the active alternative (for `long double`,
the ten bytes of its 80 bits, without the padding). -/
def value.as_bytes : value → List byte
  | .u8 v => to_le 1 v
  | .u16 v => to_le 2 v
  | .u32 v => to_le 4 v
  | .u64 v => to_le 8 v
  | .i8 v => to_le 1 (twos 1 v)
  | .i16 v => to_le 2 (twos 2 v)
  | .i32 v => to_le 4 (twos 4 v)
  | .i64 v => to_le 8 (twos 8 v)
  | .f32 b => to_le 4 b
  | .f64 b => to_le 8 b
  | .f80 b => to_le 10 b
  | .b64 bs => fit 8 bs
  | .b128 bs => fit 16 bs

/-- The value of a signed integer alternative (`std::is_signed_v<T>` for a type
that is not floating point); `none` for every other alternative. -/
def value.signed? : value → Option Int
  | .i8 v => some v
  | .i16 v => some v
  | .i32 v => some v
  | .i64 v => some v
  | _ => none

/-- Modelled from the spec: `to_byte128` of `libsdb/bit.hpp` (not part of `src/`)
applied to an object whose representation is `repr`: a zero-initialised `byte128`
into which the object's bytes are copied. -/
def to_byte128 (repr : List byte) : List byte :=
  fit 16 repr

/-- The object representation of a `long double` with the given 80 bits: ten bytes
of value and six of padding. -/
def long_double_bytes (F : float_model) (bits : Nat) : List byte :=
  to_le 10 bits ++ to_le 6 F.long_double_padding

/-- The object representation of the active alternative: `sizeof` bytes. -/
def value.object_bytes (F : float_model) : value → List byte
  | .f80 b => long_double_bytes F b
  | v => v.as_bytes

/-! ## `widen` -/

/-- For a floating point alternative, the bit patterns of `static_cast<double>(t)`
and of `static_cast<long double>(t)`; `none` for every other alternative
(`std::is_floating_point_v<T>` is false). -/
def value.floating? (F : float_model) : value → Option (Nat × Nat)
  | .f32 b => some (F.float_to_double b, F.float_to_long_double b)
  | .f64 b => some (b, F.double_to_long_double b)
  | .f80 b => some (F.long_double_to_double b, b)
  | _ => none

/-- The helper `widen(info, t)`: the 16 bytes later copied into the mirror. -/
def widen (F : float_model) (info : register_info) (t : value) : List byte :=
  match t.floating? F with
  | some (d, ld) =>
    if info.format = .double_float then to_byte128 (to_le 8 d)
    else if info.format = .long_double then to_byte128 (long_double_bytes F ld)
    else to_byte128 (t.object_bytes F)
  | none =>
    match t.signed? with
    | some v =>
      if info.format = .uint then
        match info.size with
        | 2 => to_byte128 (to_le 2 (twos 2 v))
        | 4 => to_byte128 (to_le 4 (twos 4 v))
        | 8 => to_byte128 (to_le 8 (twos 8 v))
        | _ => to_byte128 (t.object_bytes F)
      else to_byte128 (t.object_bytes F)
    | none => to_byte128 (t.object_bytes F)

/-! ## The `registers` object -/

/-- A call on the process object `proc_`, with its arguments: the bytes of the
structure or the 64-bit word passed, and the thread id. -/
inductive proc_call where
  | write_fprs (fprs : List byte) (tid : Nat)
  | write_gprs (gprs : List byte) (tid : Nat)
  | write_user_area (offset : Nat) (data : Nat) (tid : Nat)
deriving DecidableEq, Repr

/-- The data members of `sdb::registers`: the mirror `data_` as bytes, the list
`undefined_` of canonical offsets, and the thread id `tid_`. (The member `proc_`
is represented by the calls made on it.) -/
structure registers where
  data_ : List byte
  undefined_ : List Nat
  tid_ : Nat
deriving DecidableEq, Repr

/-- How `read` can fail: an `sdb::error` thrown by `sdb::error::send` with the
given message, or an access outside the mirror. -/
inductive read_error where
  | error (what : String)
  | out_of_bounds
deriving DecidableEq, Repr

/-- How a member function that changes the object ends: it returns, it calls
`std::terminate`, or it accesses bytes outside a buffer. -/
inductive status where
  | ok
  | terminated
  | out_of_bounds
deriving DecidableEq, Repr

/-- The outcome of `write` or `flush`: how it ended, the object as it then is,
and the calls made on `proc_`, first call first. -/
structure effect where
  status : status
  self : registers
  calls : List proc_call
deriving DecidableEq, Repr

/-- The member `data_.i387` of the mirror. -/
def registers.i387 (L : user_layout) (r : registers) : List byte :=
  (r.data_.drop L.i387_offset).take L.i387_size

/-- The member `data_.regs` of the mirror. -/
def registers.regs (L : user_layout) (r : registers) : List byte :=
  (r.data_.drop L.regs_offset).take L.regs_size

/-- The member function `is_undefined(id)`. -/
def registers.is_undefined (T : register_table) (r : registers) (id : register_id) : Bool :=
  let canonical_offset := (T.register_info_by_id id).offset >>> 1
  r.undefined_.contains canonical_offset

/-- The member function `undefine(id)`. -/
def registers.undefine (T : register_table) (r : registers) (id : register_id) : registers :=
  let canonical_offset := (T.register_info_by_id id).offset >>> 1
  { r with undefined_ := r.undefined_ ++ [canonical_offset] }

/-- Modelled from the spec: `from_bytes` of `libsdb/bit.hpp` (not part of `src/`),
called as `from_bytes<To>(bytes + off)` for a type `To` of `n` bytes: the `n` bytes
found there are reinterpreted as a `To`, which `k` builds from them. -/
def from_bytes (bs : List byte) (off n : Nat) (k : List byte → value) :
    Except read_error value :=
  match bytes_at bs off n with
  | some b => .ok (k b)
  | none => .error .out_of_bounds

/-- The member function `read(info)`. -/
def registers.read (T : register_table) (r : registers) (info : register_info) :
    Except read_error value :=
  if r.is_undefined T info.id then .error (.error "Register is undefined")
  else
    let bytes := r.data_
    if info.format = .uint then
      match info.size with
      | 1 => from_bytes bytes info.offset 1 (fun b => .u8 (from_le b))
      | 2 => from_bytes bytes info.offset 2 (fun b => .u16 (from_le b))
      | 4 => from_bytes bytes info.offset 4 (fun b => .u32 (from_le b))
      | 8 => from_bytes bytes info.offset 8 (fun b => .u64 (from_le b))
      | _ => .error (.error "Unexpected register size")
    else if info.format = .double_float then
      from_bytes bytes info.offset 8 (fun b => .f64 (from_le b))
    else if info.format = .long_double then
      from_bytes bytes info.offset 16 (fun b => .f80 (from_le (b.take 10)))
    else if info.format = .vector ∧ info.size = 8 then
      from_bytes bytes info.offset 8 (fun b => .b64 b)
    else
      from_bytes bytes info.offset 16 (fun b => .b128 b)

/-- The expression `info.offset & ~0b111`: the offset with its three low bits
cleared. -/
def aligned_offset (offset : Nat) : Nat :=
  (Int.land (offset : Int) (Int.not 0b111)).toNat

/-- The call `std::copy(val_bytes, val_bytes + n, bytes + off)` from the 16-byte
object `wide` into the mirror; `none` when it leaves either buffer. -/
def copy_into (bs : List byte) (off n : Nat) (wide : List byte) : Option (List byte) :=
  if n ≤ wide.length ∧ off + n ≤ bs.length then
    some (bs.take off ++ wide.take n ++ bs.drop (off + n))
  else none

/-- The member function `write(info, val, commit)`. -/
def registers.write (F : float_model) (L : user_layout) (r : registers)
    (info : register_info) (val : value) (commit : Bool) : effect :=
  if val.sizeof ≤ info.size then
    let wide := widen F info val
    match copy_into r.data_ info.offset info.size wide with
    | none => ⟨.out_of_bounds, r, []⟩
    | some bytes =>
      let r1 : registers := { r with data_ := bytes }
      if commit then
        if info.type = .fpr then
          ⟨.ok, r1, [.write_fprs (r1.i387 L) r1.tid_]⟩
        else
          let aligned := aligned_offset info.offset
          match bytes_at bytes aligned 8 with
          | some w => ⟨.ok, r1, [.write_user_area aligned (from_le w) r1.tid_]⟩
          | none => ⟨.out_of_bounds, r1, []⟩
      else ⟨.ok, r1, []⟩
  else ⟨.terminated, r, []⟩

/-- The body of the loop of `flush` for the indices in `is`: the single-word
writes it makes, or `none` when a word read lies outside the mirror. -/
def flush_debug (L : user_layout) (r : registers) (info : register_info) :
    List Nat → Option (List proc_call)
  | [] => some []
  | i :: is =>
    if i = 4 ∨ i = 5 then flush_debug L r info is
    else
      let reg_offset := info.offset + 8 * i
      match bytes_at r.data_ (L.u_debugreg_offset + 8 * i) 8 with
      | none => none
      | some w =>
        match flush_debug L r info is with
        | none => none
        | some cs => some (.write_user_area reg_offset (from_le w) r.tid_ :: cs)

/-- The member function `flush()`. -/
def registers.flush (T : register_table) (L : user_layout) (r : registers) : effect :=
  let bulk := [proc_call.write_fprs (r.i387 L) r.tid_, proc_call.write_gprs (r.regs L) r.tid_]
  let info := T.register_info_by_id T.dr0
  match flush_debug L r info (List.range 8) with
  | some cs => ⟨.ok, r, bulk ++ cs⟩
  | none => ⟨.out_of_bounds, r, bulk⟩

/-! ## A concrete platform: x86-64 Linux

Used for the closed examples; the general statements are about every table,
layout and floating point model. -/

/-- A decoded floating point number: a NaN with its fraction aligned to 63 bits,
an infinity, or the finite number `m * 2 ^ e`; each with its sign bit. -/
inductive fp_number where
  | nan (sign : Nat) (payload : Nat)
  | inf (sign : Nat)
  | finite (sign : Nat) (m : Nat) (e : Int)
deriving DecidableEq, Repr

/-- Decoding an IEEE 754 binary pattern with `ebits` exponent bits and `fbits`
fraction bits. -/
def decode_ieee (ebits fbits x : Nat) : fp_number :=
  let f : Nat := x % 2 ^ fbits
  let e : Nat := x / 2 ^ fbits % 2 ^ ebits
  let s : Nat := x / 2 ^ (fbits + ebits) % 2
  let bias : Int := 2 ^ (ebits - 1) - 1
  if e = 2 ^ ebits - 1 then
    if f = 0 then .inf s else .nan s (f * 2 ^ (63 - fbits))
  else if e = 0 then .finite s f (1 - bias - fbits)
  else .finite s (2 ^ fbits + f) (e - bias - fbits)

/-- Decoding an x87 double extended pattern (80 bits, explicit integer bit);
patterns the hardware does not support are read at face value. -/
def decode_x87 (x : Nat) : fp_number :=
  let m : Nat := x % 2 ^ 64
  let e : Nat := x / 2 ^ 64 % 2 ^ 15
  let s : Nat := x / 2 ^ 79 % 2
  if e = 2 ^ 15 - 1 then
    if m % 2 ^ 63 = 0 then .inf s else .nan s (m % 2 ^ 63)
  else .finite s m ((if e = 0 then 1 else (e : Int)) - 16383 - 63)

/-- The integer nearest to `m * 2 ^ k`, ties to even. -/
def round_shift (m : Nat) (k : Int) : Nat :=
  match k with
  | .ofNat n => m * 2 ^ n
  | .negSucc n =>
    let q := m / 2 ^ (n + 1)
    let r := m % 2 ^ (n + 1)
    if r > 2 ^ n ∨ (r = 2 ^ n ∧ q % 2 = 1) then q + 1 else q

/-- Encoding into an IEEE 754 binary pattern, rounding to nearest, ties to even;
a NaN comes out quiet. -/
def encode_ieee (ebits fbits : Nat) : fp_number → Nat
  | .nan s p =>
    (s * 2 ^ ebits + (2 ^ ebits - 1)) * 2 ^ fbits
      + ((p / 2 ^ (63 - fbits)) % 2 ^ fbits ||| 2 ^ (fbits - 1))
  | .inf s => (s * 2 ^ ebits + (2 ^ ebits - 1)) * 2 ^ fbits
  | .finite s m e =>
    let top := s * 2 ^ (ebits + fbits)
    if m = 0 then top
    else
      let emin : Int := 2 - 2 ^ (ebits - 1)
      let ex : Int := max (Nat.log2 m + e) emin
      let n := round_shift m (e - (ex - fbits))
      let mag := (ex - emin).toNat * 2 ^ fbits + n
      if mag ≥ (2 ^ ebits - 1) * 2 ^ fbits then top + (2 ^ ebits - 1) * 2 ^ fbits
      else top + mag

/-- Encoding into an x87 double extended pattern, rounding to nearest, ties to
even; a NaN comes out quiet. -/
def encode_x87 : fp_number → Nat
  | .nan s p => (s * 2 ^ 15 + (2 ^ 15 - 1)) * 2 ^ 64 + 2 ^ 63 + (p % 2 ^ 63 ||| 2 ^ 62)
  | .inf s => (s * 2 ^ 15 + (2 ^ 15 - 1)) * 2 ^ 64 + 2 ^ 63
  | .finite s m e =>
    let top := s * 2 ^ 79
    if m = 0 then top
    else
      let emin : Int := -16382
      let ex : Int := max (Nat.log2 m + e) emin
      let n := round_shift m (e - (ex - 63))
      let field := (ex - emin).toNat + (if n ≥ 2 ^ 63 then 1 else 0)
        + (if n ≥ 2 ^ 64 then 1 else 0)
      let sig := if n ≥ 2 ^ 64 then 2 ^ 63 else n
      if field ≥ 2 ^ 15 - 1 then top + (2 ^ 15 - 1) * 2 ^ 64 + 2 ^ 63
      else top + field * 2 ^ 64 + sig

/-- The conversions of x86-64 hardware in its default rounding mode; the padding
of a `long double` is taken to be zero. -/
def x86_64_float : float_model where
  float_to_double b := encode_ieee 11 52 (decode_ieee 8 23 b)
  float_to_long_double b := encode_x87 (decode_ieee 8 23 b)
  double_to_long_double b := encode_x87 (decode_ieee 11 52 b)
  long_double_to_double b := encode_ieee 11 52 (decode_x87 b)
  long_double_padding := 0

/-- The layout of `user` on x86-64 Linux: `regs` at 0 (216 bytes), `i387` at 224
(512 bytes), `u_debugreg` at 848; the structure has 912 bytes. -/
def x86_64_layout : user_layout := ⟨0, 216, 224, 512, 848⟩

/-- Some rows of the x86-64 register table. -/
def rax : register_info := ⟨0, "rax", .gpr, .uint, 8, 80⟩
def eax : register_info := ⟨1, "eax", .gpr, .uint, 4, 80⟩
def ax : register_info := ⟨2, "ax", .gpr, .uint, 2, 80⟩
def ah : register_info := ⟨3, "ah", .gpr, .uint, 1, 81⟩
def al : register_info := ⟨4, "al", .gpr, .uint, 1, 80⟩
def fcw : register_info := ⟨5, "fcw", .fpr, .uint, 2, 224⟩
def st0 : register_info := ⟨6, "st0", .fpr, .long_double, 16, 256⟩
def mm0 : register_info := ⟨7, "mm0", .fpr, .vector, 8, 256⟩
def xmm0 : register_info := ⟨8, "xmm0", .fpr, .vector, 16, 384⟩
def dr0 : register_info := ⟨9, "dr0", .dr, .uint, 8, 848⟩
def dr7 : register_info := ⟨10, "dr7", .dr, .uint, 8, 904⟩
def orig_rax : register_info := ⟨11, "orig_rax", .gpr, .uint, 8, 120⟩

/-- A descriptor of format `double_float` over the low half of `xmm0` (the x86-64
table has none of that format). -/
def xmm0_double : register_info := ⟨12, "xmm0_double", .fpr, .double_float, 8, 384⟩

/-- A register table holding the descriptors above (`rax` for every other id). -/
def sample_table : register_table where
  register_info_by_id i :=
    match i with
    | 1 => eax
    | 2 => ax
    | 3 => ah
    | 4 => al
    | 5 => fcw
    | 6 => st0
    | 7 => mm0
    | 8 => xmm0
    | 9 => dr0
    | 10 => dr7
    | 11 => orig_rax
    | 12 => xmm0_double
    | _ => rax
  dr0 := 9

/-- A 912-byte mirror whose byte at offset `i` is `i % 251`, no undefined
register, thread 42. -/
def sample_registers : registers :=
  ⟨(List.range 912).map (fun i => ⟨i % 251 % 256, Nat.mod_lt _ (by decide)⟩), [], 42⟩

/-- A `vector` descriptor of four bytes over the last four bytes of the mirror: it
satisfies `offset + size ≤ 912`, and no row of the x86-64 table is like it. -/
def tail_vector : register_info := ⟨13, "tail_vector", .fpr, .vector, 4, 908⟩

/-- The sample table with `tail_vector` added. -/
def tail_table : register_table where
  register_info_by_id i := if i = 13 then tail_vector else sample_table.register_info_by_id i
  dr0 := 9

/-- A `uint` descriptor of three bytes over the low bytes of `rax`: a size `read`
has no case for, and no row of the x86-64 table is like it. -/
def rax_low3 : register_info := ⟨14, "rax_low3", .gpr, .uint, 3, 80⟩

/-- The sample table with `rax_low3` added. -/
def low3_table : register_table where
  register_info_by_id i := if i = 14 then rax_low3 else sample_table.register_info_by_id i
  dr0 := 9

/-! ## Vocabulary of the statements -/

/-- The mirror bytes after the first `info.size` bytes of `widen F info val` are
copied to `info.offset`. -/
def stored_bytes (F : float_model) (bs : List byte) (info : register_info) (val : value) :
    List byte :=
  bs.take info.offset ++ (widen F info val).take info.size ++ bs.drop (info.offset + info.size)

/-- The unsigned alternative of `size` bytes holding `v` (sizes 1, 2, 4, 8). -/
def unsigned_value (size v : Nat) : value :=
  match size with
  | 1 => .u8 v
  | 2 => .u16 v
  | 4 => .u32 v
  | _ => .u64 v

/-- The number of bytes `read(info)` takes from the mirror at `info.offset`: the
size of the type `from_bytes` is instantiated with. -/
def read_width (info : register_info) : Nat :=
  if info.format = .uint then info.size
  else if info.format = .double_float then 8
  else if info.format = .long_double then 16
  else if info.format = .vector ∧ info.size = 8 then 8
  else 16

/-- The 8-byte word held in slot `i` of `data_.u_debugreg`, as a number. -/
def registers.debug_word (L : user_layout) (r : registers) (i : Nat) : Nat :=
  from_le ((r.data_.drop (L.u_debugreg_offset + 8 * i)).take 8)

/-- The offset of a single-word write; `none` for a bulk write. -/
def proc_call.user_area_offset : proc_call → Option Nat
  | .write_user_area offset _ _ => some offset
  | _ => none

/-- The signed alternative of `width` bytes holding `v` (widths 1, 2, 4, 8). -/
def signed_value (width : Nat) (v : Int) : value :=
  match width with
  | 1 => .i8 v
  | 2 => .i16 v
  | 4 => .i32 v
  | _ => .i64 v

/-- The number a pattern `u` on `8 * n` bits stands for as a two's-complement
integer. -/
def as_signed (n : Nat) (u : Nat) : Int :=
  if u < 2 ^ (8 * n - 1) then (u : Int) else (u : Int) - 2 ^ (8 * n)

/-- One call of a member function of `registers`, with its arguments. -/
inductive operation where
  | read (info : register_info)
  | write (info : register_info) (val : value) (commit : Bool)
  | flush
  | undefine (id : register_id)
deriving DecidableEq, Repr

/-- The object after one call (`read` is a `const` member function). -/
def registers.after (F : float_model) (L : user_layout) (T : register_table) (r : registers) :
    operation → registers
  | .read _ => r
  | .write info val commit => (r.write F L info val commit).self
  | .flush => (r.flush T L).self
  | .undefine id => r.undefine T id

/-- The object after a sequence of calls, first call first. -/
def registers.after_all (F : float_model) (L : user_layout) (T : register_table) :
    registers → List operation → registers
  | r, [] => r
  | r, op :: ops => registers.after_all F L T (r.after F L T op) ops

/-- The message of the error thrown for an undefined register. -/
def undefined_register : read_error := .error "Register is undefined"

/-- The message of the error thrown for a `uint` register of unexpected size. -/
def unexpected_size : read_error := .error "Unexpected register size"

/-! ## Lemmas on bytes -/

theorem length_to_le (n v : Nat) : (to_le n v).length = n := by
  induction n generalizing v with
  | zero => rfl
  | succ k ih => simp [to_le, ih]

theorem from_le_to_le (n v : Nat) : from_le (to_le n v) = v % 256 ^ n := by
  induction n generalizing v with
  | zero => simp [to_le, from_le, Nat.mod_one]
  | succ k ih =>
    simp only [to_le, from_le, ih]
    rw [pow_succ, Nat.mul_comm (256 ^ k) 256, Nat.mod_mul]

theorem from_le_lt (bs : List byte) : from_le bs < 256 ^ bs.length := by
  induction bs with
  | nil => simp [from_le]
  | cons b bs ih =>
    have hb := b.isLt
    simp only [from_le, List.length_cons, pow_succ]
    omega

theorem to_le_from_le (bs : List byte) : to_le bs.length (from_le bs) = bs := by
  induction bs with
  | nil => rfl
  | cons b bs ih =>
    have hb := b.isLt
    have h1 : (b.val + 256 * from_le bs) % 256 = b.val := by omega
    have h2 : (b.val + 256 * from_le bs) / 256 = from_le bs := by omega
    simp only [List.length_cons, to_le, from_le, h2, ih]
    congr 1
    exact Fin.ext h1

theorem length_fit (n : Nat) (bs : List byte) : (fit n bs).length = n := by
  simp [fit]

theorem take_fit (n k : Nat) (bs : List byte) (hk : k ≤ bs.length) (hn : k ≤ n) :
    (fit n bs).take k = bs.take k := by
  unfold fit
  rw [List.take_take, Nat.min_eq_left hn, List.take_append_of_le_length hk]

theorem fit_of_length (n : Nat) (bs : List byte) (h : bs.length = n) : fit n bs = bs := by
  unfold fit
  rw [List.take_append_of_le_length (by omega), List.take_of_length_le (by omega)]

theorem length_widen (F : float_model) (info : register_info) (t : value) :
    (widen F info t).length = 16 := by
  unfold widen
  repeat' split
  all_goals exact length_fit 16 _

theorem ldiff_seven (x : Nat) : Nat.ldiff x 7 = x / 8 * 8 := by
  apply Nat.eq_of_testBit_eq
  intro i
  have h7 : (7 : Nat) = 2 ^ 3 - 1 := by norm_num
  have h8 : x / 8 * 8 = (x >>> 3) <<< 3 := by
    rw [Nat.shiftLeft_eq, Nat.shiftRight_eq_div_pow]
  rw [Nat.testBit_ldiff, h7, Nat.testBit_two_pow_sub_one, h8, Nat.testBit_shiftLeft,
    Nat.testBit_shiftRight]
  by_cases h : i < 3
  · simp [h]
  · have h3 : 3 + (i - 3) = i := by omega
    simp [h, h3]
    omega

/-- Clearing the three low bits rounds the offset down to a multiple of eight. -/
theorem aligned_offset_eq (x : Nat) : aligned_offset x = x / 8 * 8 := by
  show (Int.ofNat (Nat.ldiff x 7)).toNat = x / 8 * 8
  rw [ldiff_seven]
  rfl

theorem bytes_at_eq_some (bs : List byte) (off n : Nat) (h : off + n ≤ bs.length) :
    bytes_at bs off n = some ((bs.drop off).take n) := by
  simp [bytes_at, h]

/-- The mirror after a copy, byte by byte. -/
theorem getElem?_splice (bs w : List byte) (off n i : Nat) (hn : n ≤ w.length)
    (hb : off + n ≤ bs.length) :
    (bs.take off ++ w.take n ++ bs.drop (off + n))[i]? =
      if off ≤ i ∧ i < off + n then w[i - off]? else bs[i]? := by
  have h1 : (bs.take off).length = off := by rw [List.length_take]; omega
  have h2 : (w.take n).length = n := by rw [List.length_take]; omega
  by_cases c1 : i < off
  · rw [List.append_assoc, List.getElem?_append_left (by omega)]
    have hc : ¬ (off ≤ i ∧ i < off + n) := by omega
    rw [if_neg hc, List.getElem?_take]
    simp [c1]
  · by_cases c2 : i < off + n
    · rw [List.getElem?_append_left (by rw [List.length_append]; omega),
        List.getElem?_append_right (by omega), h1, List.getElem?_take]
      have hc : off ≤ i ∧ i < off + n := by omega
      rw [if_pos hc]
      simp
      omega
    · rw [List.getElem?_append_right (by rw [List.length_append]; omega)]
      have hc : ¬ (off ≤ i ∧ i < off + n) := by omega
      rw [if_neg hc, List.length_append, h1, h2, List.getElem?_drop]
      congr 1
      omega

theorem length_splice (bs w : List byte) (off n : Nat) (hn : n ≤ w.length)
    (hb : off + n ≤ bs.length) :
    (bs.take off ++ w.take n ++ bs.drop (off + n)).length = bs.length := by
  simp only [List.length_append, List.length_take, List.length_drop]
  omega

/-- Reading back the bytes just copied. -/
theorem bytes_at_splice (bs w : List byte) (off n : Nat) (hn : n ≤ w.length)
    (hb : off + n ≤ bs.length) :
    bytes_at (bs.take off ++ w.take n ++ bs.drop (off + n)) off n = some (w.take n) := by
  rw [bytes_at_eq_some _ _ _ (by rw [length_splice _ _ _ _ hn hb]; exact hb)]
  congr 1
  have h1 : (bs.take off).length = off := by rw [List.length_take]; omega
  have h2 : (w.take n).length = n := by rw [List.length_take]; omega
  rw [List.append_assoc, List.drop_append_eq_append_drop, h1, List.drop_of_length_le (by omega)]
  simp only [Nat.sub_self, List.drop_zero, List.nil_append]
  rw [List.take_append_of_le_length (by omega), List.take_of_length_le (by omega)]

/-! ## Lemmas on `write` -/

theorem sizeof_pos (val : value) : 1 ≤ val.sizeof := by
  cases val <;> simp [value.sizeof]

theorem aligned_word_inside (len off : Nat) (hw : 8 ∣ len) (h : off < len) :
    aligned_offset off + 8 ≤ len := by
  rw [aligned_offset_eq]
  omega

theorem copy_into_eq (F : float_model) (bs : List byte) (info : register_info) (val : value)
    (h16 : info.size ≤ 16) (hb : info.offset + info.size ≤ bs.length) :
    copy_into bs info.offset info.size (widen F info val) = some (stored_bytes F bs info val) := by
  simp [copy_into, length_widen, h16, hb, stored_bytes]

theorem length_stored_bytes (F : float_model) (bs : List byte) (info : register_info)
    (val : value) (h16 : info.size ≤ 16) (hb : info.offset + info.size ≤ bs.length) :
    (stored_bytes F bs info val).length = bs.length :=
  length_splice _ _ _ _ (by rw [length_widen]; exact h16) hb

/-- A write without commit: the copy, and no call. -/
theorem write_local (F : float_model) (L : user_layout) (r : registers) (info : register_info)
    (val : value) (hs : val.sizeof ≤ info.size) (h16 : info.size ≤ 16)
    (hb : info.offset + info.size ≤ r.data_.length) :
    r.write F L info val false =
      ⟨.ok, { r with data_ := stored_bytes F r.data_ info val }, []⟩ := by
  simp [registers.write, hs, copy_into_eq F _ _ _ h16 hb]

/-- A committed write: the copy, then one call chosen by the register type. -/
theorem write_commit (F : float_model) (L : user_layout) (r : registers) (info : register_info)
    (val : value) (hs : val.sizeof ≤ info.size) (h16 : info.size ≤ 16)
    (hb : info.offset + info.size ≤ r.data_.length) (hw : 8 ∣ r.data_.length) :
    r.write F L info val true =
      ⟨.ok, { r with data_ := stored_bytes F r.data_ info val },
        if info.type = .fpr then
          [.write_fprs (((stored_bytes F r.data_ info val).drop L.i387_offset).take L.i387_size)
            r.tid_]
        else
          [.write_user_area (aligned_offset info.offset)
            (from_le (((stored_bytes F r.data_ info val).drop (aligned_offset info.offset)).take 8))
            r.tid_]⟩ := by
  have hpos := sizeof_pos val
  have hin : aligned_offset info.offset + 8 ≤ (stored_bytes F r.data_ info val).length := by
    rw [length_stored_bytes F _ _ _ h16 hb]
    exact aligned_word_inside _ _ hw (by omega)
  by_cases ht : info.type = .fpr
  · simp [registers.write, hs, copy_into_eq F _ _ _ h16 hb, ht, registers.i387]
  · simp [registers.write, hs, copy_into_eq F _ _ _ h16 hb, ht, bytes_at_eq_some _ _ _ hin]

/-- With either commit flag, a write whose accesses stay inside the buffers returns
and leaves the object with the widened bytes copied in. -/
theorem write_self (F : float_model) (L : user_layout) (r : registers) (info : register_info)
    (val : value) (commit : Bool) (hs : val.sizeof ≤ info.size) (h16 : info.size ≤ 16)
    (hb : info.offset + info.size ≤ r.data_.length) (hw : 8 ∣ r.data_.length) :
    (r.write F L info val commit).status = .ok ∧
      (r.write F L info val commit).self = { r with data_ := stored_bytes F r.data_ info val } := by
  cases commit
  · rw [write_local F L r info val hs h16 hb]
    exact ⟨rfl, rfl⟩
  · rw [write_commit F L r info val hs h16 hb hw]
    exact ⟨rfl, rfl⟩

theorem bytes_at_stored (F : float_model) (bs : List byte) (info : register_info) (val : value)
    (h16 : info.size ≤ 16) (hb : info.offset + info.size ≤ bs.length) :
    bytes_at (stored_bytes F bs info val) info.offset info.size =
      some ((widen F info val).take info.size) :=
  bytes_at_splice _ _ _ _ (by rw [length_widen]; exact h16) hb

/-! ## Lemmas on `read` -/

theorem is_undefined_with_data (T : register_table) (r : registers) (bs : List byte)
    (id : register_id) :
    registers.is_undefined T { r with data_ := bs } id = r.is_undefined T id := rfl

theorem take_to_byte128 (n : Nat) (repr : List byte) (h : n ≤ repr.length) (hn : n ≤ 16) :
    (to_byte128 repr).take n = repr.take n :=
  take_fit 16 n repr h hn

/-- Reading a `uint` register of 1, 2, 4 or 8 bytes that is not undefined. -/
theorem read_uint (T : register_table) (r : registers) (info : register_info)
    (bs : List byte) (hf : info.format = .uint)
    (hsz : info.size = 1 ∨ info.size = 2 ∨ info.size = 4 ∨ info.size = 8)
    (hu : r.is_undefined T info.id = false)
    (hbs : bytes_at r.data_ info.offset info.size = some bs) :
    r.read T info = .ok (unsigned_value info.size (from_le bs)) := by
  rcases hsz with h | h | h | h <;> rw [h] at hbs <;>
    simp [registers.read, hu, hf, h, from_bytes, hbs, unsigned_value]

/-! ## C1: writing an unsigned value and reading it back -/

/-- C1 (amended): for a descriptor of format `uint` and size 1, 2, 4 or 8 lying
inside the mirror, whose register is not undefined, and a value `v` of the unsigned
type of that size, `write` (with either commit flag) returns and the `read` that
follows returns the unsigned alternative of that size holding exactly `v`. -/
theorem uint_write_read (F : float_model) (L : user_layout) (T : register_table)
    (r : registers) (info : register_info) (v : Nat) (commit : Bool)
    (hf : info.format = .uint)
    (hsz : info.size = 1 ∨ info.size = 2 ∨ info.size = 4 ∨ info.size = 8)
    (hb : info.offset + info.size ≤ r.data_.length) (hw : 8 ∣ r.data_.length)
    (hv : v < 2 ^ (8 * info.size))
    (hu : r.is_undefined T info.id = false) :
    (r.write F L info (unsigned_value info.size v) commit).status = .ok ∧
      (r.write F L info (unsigned_value info.size v) commit).self.read T info =
        .ok (unsigned_value info.size v) := by
  have h16 : info.size ≤ 16 := by omega
  have hs : (unsigned_value info.size v).sizeof ≤ info.size := by
    rcases hsz with h | h | h | h <;> simp [h, unsigned_value, value.sizeof]
  obtain ⟨hok, hself⟩ := write_self F L r info _ commit hs h16 hb hw
  refine ⟨hok, ?_⟩
  rw [hself, read_uint T _ info _ hf hsz (by rw [is_undefined_with_data]; exact hu)
    (bytes_at_stored F r.data_ info _ h16 hb)]
  congr 2
  rcases hsz with h | h | h | h <;> rw [h] at hv <;>
    simp only [h, unsigned_value, widen, value.floating?, value.signed?, value.object_bytes,
      value.as_bytes] <;>
    rw [take_to_byte128 _ _ (by rw [length_to_le]) (by decide),
      List.take_of_length_le (by rw [length_to_le]), from_le_to_le] <;>
    exact Nat.mod_eq_of_lt (by norm_num at hv ⊢; exact hv)

/-- C1, as stated, fails: once `eax` is undefined, writing 5 to it succeeds but the
read that follows throws instead of returning 5. -/
theorem uint_write_read_undefined :
    ((sample_registers.undefine sample_table eax.id).write x86_64_float x86_64_layout eax
        (.u32 5) false).status = .ok ∧
      ((sample_registers.undefine sample_table eax.id).write x86_64_float x86_64_layout eax
        (.u32 5) false).self.read sample_table eax = .error undefined_register := by
  decide

/-- C1 (amended) at `eax` of the sample mirror, value 5, committed. -/
theorem uint_write_read_witness :
    (eax.format = .uint ∧ eax.offset + eax.size ≤ sample_registers.data_.length ∧
        8 ∣ sample_registers.data_.length ∧ 5 < 2 ^ (8 * eax.size) ∧
        sample_registers.is_undefined sample_table eax.id = false) ∧
      (sample_registers.write x86_64_float x86_64_layout eax
        (unsigned_value eax.size 5) true).status = .ok ∧
      (sample_registers.write x86_64_float x86_64_layout eax
        (unsigned_value eax.size 5) true).self.read sample_table eax =
        .ok (unsigned_value eax.size 5) :=
  ⟨by decide,
    uint_write_read x86_64_float x86_64_layout sample_table sample_registers eax 5 true
      (by decide) (by decide) (by decide) (by decide) (by decide) (by decide)⟩

/-! ## C2: writing a double and reading it back -/

/-- C2 (amended): for a descriptor of format `double_float` and size 8 lying inside
the mirror, whose register is not undefined, and a double given by its 64-bit
pattern `d`, `write` (with either commit flag) returns and the `read` that follows
returns the `double` alternative with the same 64 bits. -/
theorem double_write_read (F : float_model) (L : user_layout) (T : register_table)
    (r : registers) (info : register_info) (d : Nat) (commit : Bool)
    (hf : info.format = .double_float) (hsz : info.size = 8)
    (hb : info.offset + info.size ≤ r.data_.length) (hw : 8 ∣ r.data_.length)
    (hd : d < 2 ^ 64)
    (hu : r.is_undefined T info.id = false) :
    (r.write F L info (.f64 d) commit).status = .ok ∧
      (r.write F L info (.f64 d) commit).self.read T info = .ok (.f64 d) := by
  have h16 : info.size ≤ 16 := by omega
  have hs : (value.f64 d).sizeof ≤ info.size := by simp [hsz, value.sizeof]
  obtain ⟨hok, hself⟩ := write_self F L r info _ commit hs h16 hb hw
  refine ⟨hok, ?_⟩
  have hbs := bytes_at_stored F r.data_ info (.f64 d) h16 hb
  have hwide : (widen F info (.f64 d)).take 8 = to_le 8 d := by
    simp only [widen, value.floating?, hf, if_true]
    rw [take_to_byte128 _ _ (by rw [length_to_le]) (by decide),
      List.take_of_length_le (by rw [length_to_le])]
  rw [hsz, hwide] at hbs
  rw [hself]
  have hu2 : registers.is_undefined T { r with data_ := stored_bytes F r.data_ info (.f64 d) }
      info.id = false := hu
  have hd2 : d % 256 ^ 8 = d := Nat.mod_eq_of_lt (by norm_num at hd ⊢; exact hd)
  simp only [registers.read, hu2, hf, from_bytes, hbs, from_le_to_le, hd2]
  simp

/-- C2, as stated, fails: once the register is undefined, writing the double 1.5 to
it succeeds but the read that follows throws. -/
theorem double_write_read_undefined :
    ((sample_registers.undefine sample_table xmm0_double.id).write x86_64_float x86_64_layout
        xmm0_double (.f64 0x3FF8000000000000) true).status = .ok ∧
      ((sample_registers.undefine sample_table xmm0_double.id).write x86_64_float
        x86_64_layout xmm0_double (.f64 0x3FF8000000000000) true).self.read sample_table
          xmm0_double = .error undefined_register := by
  decide

/-- C2 (amended) at a signalling NaN with a payload and the sign bit set. -/
theorem double_write_read_witness :
    (xmm0_double.format = .double_float ∧ xmm0_double.size = 8 ∧
        xmm0_double.offset + xmm0_double.size ≤ sample_registers.data_.length ∧
        8 ∣ sample_registers.data_.length ∧ 0xFFF0000000000001 < 2 ^ 64 ∧
        sample_registers.is_undefined sample_table xmm0_double.id = false) ∧
      (sample_registers.write x86_64_float x86_64_layout xmm0_double
        (.f64 0xFFF0000000000001) true).status = .ok ∧
      (sample_registers.write x86_64_float x86_64_layout xmm0_double
        (.f64 0xFFF0000000000001) true).self.read sample_table xmm0_double =
        .ok (.f64 0xFFF0000000000001) :=
  ⟨by decide,
    double_write_read x86_64_float x86_64_layout sample_table sample_registers xmm0_double
      0xFFF0000000000001 true (by decide) (by decide) (by decide) (by decide) (by decide)
      (by decide)⟩

/-! ## C3: writing a signed -1 into a 4-byte unsigned register -/

theorem twos_neg_one : twos 4 (-1) = 0xFFFFFFFF := by decide

/-- What `widen` yields for a signed integer and a 4-byte `uint` register. -/
theorem take_widen_signed_four (F : float_model) (info : register_info) (val : value)
    (v : Int) (hf : info.format = .uint) (hsz : info.size = 4)
    (hfl : val.floating? F = none) (hsg : val.signed? = some v) :
    (widen F info val).take 4 = to_le 4 (twos 4 v) := by
  simp only [widen, hfl, hsg, hf, hsz, if_true]
  rw [take_to_byte128 _ _ (by rw [length_to_le]) (by decide),
    List.take_of_length_le (by rw [length_to_le])]

theorem signed_write_read_four (F : float_model) (L : user_layout) (T : register_table)
    (r : registers) (info : register_info) (val : value) (v : Int) (commit : Bool)
    (hf : info.format = .uint) (hsz : info.size = 4)
    (hb : info.offset + info.size ≤ r.data_.length) (hw : 8 ∣ r.data_.length)
    (hu : r.is_undefined T info.id = false)
    (hs : val.sizeof ≤ info.size)
    (hfl : val.floating? F = none) (hsg : val.signed? = some v) :
    (r.write F L info val commit).status = .ok ∧
      (r.write F L info val commit).self.read T info = .ok (.u32 (twos 4 v)) := by
  have h16 : info.size ≤ 16 := by omega
  obtain ⟨hok, hself⟩ := write_self F L r info val commit hs h16 hb hw
  refine ⟨hok, ?_⟩
  have hbs := bytes_at_stored F r.data_ info val h16 hb
  rw [hsz, take_widen_signed_four F info val v hf hsz hfl hsg] at hbs
  rw [← hsz] at hbs
  rw [hself, read_uint T _ info _ hf (by omega) (by rw [is_undefined_with_data]; exact hu) hbs,
    from_le_to_le, hsz]
  have hlt : twos 4 v < 256 ^ 4 := by
    unfold twos
    have h1 : v % (2 ^ (8 * 4) : Int) < 2 ^ (8 * 4) := Int.emod_lt_of_pos _ (by norm_num)
    have h2 : 0 ≤ v % (2 ^ (8 * 4) : Int) := Int.emod_nonneg _ (by norm_num)
    norm_num at h1 h2 ⊢
    omega
  rw [Nat.mod_eq_of_lt hlt]
  rfl

/-- C3 (amended): for a descriptor of format `uint` and size 4 lying inside the
mirror, whose register is not undefined, writing -1 held in an `int8`, `int16` or
`int32` (with either commit flag) returns, and the `read` that follows returns the
`uint32` value `0xFFFFFFFF`; writing -1 held in an `int64` calls `std::terminate`. -/
theorem minus_one_write_read (F : float_model) (L : user_layout) (T : register_table)
    (r : registers) (info : register_info) (commit : Bool)
    (hf : info.format = .uint) (hsz : info.size = 4)
    (hb : info.offset + info.size ≤ r.data_.length) (hw : 8 ∣ r.data_.length)
    (hu : r.is_undefined T info.id = false) :
    ((r.write F L info (.i8 (-1)) commit).status = .ok ∧
        (r.write F L info (.i8 (-1)) commit).self.read T info = .ok (.u32 0xFFFFFFFF)) ∧
      ((r.write F L info (.i16 (-1)) commit).status = .ok ∧
        (r.write F L info (.i16 (-1)) commit).self.read T info = .ok (.u32 0xFFFFFFFF)) ∧
      ((r.write F L info (.i32 (-1)) commit).status = .ok ∧
        (r.write F L info (.i32 (-1)) commit).self.read T info = .ok (.u32 0xFFFFFFFF)) ∧
      (r.write F L info (.i64 (-1)) commit).status = .terminated := by
  refine ⟨?_, ?_, ?_, ?_⟩
  · have h := signed_write_read_four F L T r info (.i8 (-1)) (-1) commit hf hsz hb hw hu
      (by simp [value.sizeof, hsz]) rfl rfl
    rwa [twos_neg_one] at h
  · have h := signed_write_read_four F L T r info (.i16 (-1)) (-1) commit hf hsz hb hw hu
      (by simp [value.sizeof, hsz]) rfl rfl
    rwa [twos_neg_one] at h
  · have h := signed_write_read_four F L T r info (.i32 (-1)) (-1) commit hf hsz hb hw hu
      (by simp [value.sizeof, hsz]) rfl rfl
    rwa [twos_neg_one] at h
  · simp [registers.write, value.sizeof, hsz]

/-- C3, as stated, fails twice over: an `int64` holding -1 is wider than `eax`, so
`write` terminates, the mirror keeps its bytes and `read` returns the old value;
and once `eax` is undefined, the `read` after a successful write of an `int8` -1
throws. -/
theorem minus_one_write_read_fails :
    ((sample_registers.write x86_64_float x86_64_layout eax (.i64 (-1)) false).status
        = .terminated ∧
      (sample_registers.write x86_64_float x86_64_layout eax (.i64 (-1)) false).self.read
        sample_table eax = .ok (.u32 0x53525150)) ∧
    (((sample_registers.undefine sample_table eax.id).write x86_64_float x86_64_layout eax
        (.i8 (-1)) false).status = .ok ∧
      ((sample_registers.undefine sample_table eax.id).write x86_64_float x86_64_layout eax
        (.i8 (-1)) false).self.read sample_table eax = .error undefined_register) := by
  decide

/-- C3 (amended) at `eax` of the sample mirror. -/
theorem minus_one_write_read_witness :
    (eax.format = .uint ∧ eax.size = 4 ∧
        eax.offset + eax.size ≤ sample_registers.data_.length ∧
        8 ∣ sample_registers.data_.length ∧
        sample_registers.is_undefined sample_table eax.id = false) ∧
      (sample_registers.write x86_64_float x86_64_layout eax (.i16 (-1)) false).self.read
        sample_table eax = .ok (.u32 0xFFFFFFFF) :=
  ⟨by decide,
    (minus_one_write_read x86_64_float x86_64_layout sample_table sample_registers eax false
      (by decide) (by decide) (by decide) (by decide) (by decide)).2.1.2⟩

/-! ## C4: reading an undefined register -/

theorem is_undefined_undefine (T : register_table) (r : registers) (a b : register_id) :
    (r.undefine T a).is_undefined T b =
      (r.is_undefined T b ||
        decide ((T.register_info_by_id b).offset >>> 1 = (T.register_info_by_id a).offset >>> 1))
    := by
  simp [registers.is_undefined, registers.undefine, List.contains_eq_any_beq, List.any_append]

/-- C4: for every state and every two descriptors `a`, `b` of the table with
`a.offset >> 1 = b.offset >> 1` (in particular `b = a`), after `undefine(a.id)` the
call `read(b)` throws the undefined-register error and returns no value, whatever
the format and the size of `b`. -/
theorem read_after_undefine (T : register_table) (r : registers) (a b : register_info)
    (ha : T.register_info_by_id a.id = a) (hb : T.register_info_by_id b.id = b)
    (h : a.offset >>> 1 = b.offset >>> 1) :
    (r.undefine T a.id).read T b = .error undefined_register := by
  have hu : (r.undefine T a.id).is_undefined T b.id = true := by
    rw [is_undefined_undefine, ha, hb, h]
    simp
  simp [registers.read, hu, undefined_register]

/-- C4 at `rax` and its alias `ah`, one byte further. -/
theorem read_after_undefine_witness :
    (sample_table.register_info_by_id rax.id = rax ∧
        sample_table.register_info_by_id ah.id = ah ∧ rax.offset >>> 1 = ah.offset >>> 1) ∧
      (sample_registers.undefine sample_table rax.id).read sample_table ah =
        .error undefined_register :=
  ⟨by decide,
    read_after_undefine sample_table sample_registers rax ah (by decide) (by decide)
      (by decide)⟩

/-! ## C5: a write without commit -/

theorem getElem?_bytes_at (bs b : List byte) (off n i : Nat) (h : bytes_at bs off n = some b)
    (hi : i < n) : b[i]? = bs[off + i]? := by
  unfold bytes_at at h
  split at h
  · cases h
    rw [List.getElem?_take, if_pos hi, List.getElem?_drop]
  · cases h

theorem length_bytes_at (bs b : List byte) (off n : Nat) (h : bytes_at bs off n = some b) :
    b.length = n := by
  unfold bytes_at at h
  split at h
  · cases h
    rw [List.length_take, List.length_drop]
    omega
  · cases h

theorem from_bytes_ok (bs : List byte) (off n : Nat) (k : List byte → value) (x : value)
    (h : from_bytes bs off n k = .ok x) : ∃ b, bytes_at bs off n = some b ∧ x = k b := by
  unfold from_bytes at h
  split at h
  · next b hb =>
    cases h
    exact ⟨b, hb, rfl⟩
  · cases h

/-- The value `read` returns is a view of the mirror: its bytes are the bytes of
the mirror from `info.offset` on. -/
theorem read_ok_bytes (T : register_table) (r : registers) (info : register_info) (x : value)
    (h : r.read T info = .ok x) (i : Nat) (hi : i < x.as_bytes.length) :
    x.as_bytes[i]? = r.data_[info.offset + i]? := by
  unfold registers.read at h
  split at h
  · cases h
  · simp only at h
    split at h
    · split at h
      all_goals first
        | cases h
        | (obtain ⟨b, hb, rfl⟩ := from_bytes_ok _ _ _ _ _ h
           have hl := length_bytes_at _ _ _ _ hb
           simp only [value.as_bytes] at hi ⊢
           rw [← hl, to_le_from_le] at hi ⊢
           exact getElem?_bytes_at _ _ _ _ _ hb (by omega))
    · split at h
      · obtain ⟨b, hb, rfl⟩ := from_bytes_ok _ _ _ _ _ h
        have hl := length_bytes_at _ _ _ _ hb
        simp only [value.as_bytes] at hi ⊢
        rw [← hl, to_le_from_le] at hi ⊢
        exact getElem?_bytes_at _ _ _ _ _ hb (by omega)
      · split at h
        · obtain ⟨b, hb, rfl⟩ := from_bytes_ok _ _ _ _ _ h
          have hl := length_bytes_at _ _ _ _ hb
          have hl10 : (b.take 10).length = 10 := by rw [List.length_take]; omega
          have e : to_le 10 (from_le (b.take 10)) = b.take 10 := by
            have e1 := to_le_from_le (b.take 10)
            rwa [hl10] at e1
          simp only [value.as_bytes, e] at hi ⊢
          rw [hl10] at hi
          rw [List.getElem?_take, if_pos hi]
          exact getElem?_bytes_at _ _ _ _ _ hb (by omega)
        · split at h
          · obtain ⟨b, hb, rfl⟩ := from_bytes_ok _ _ _ _ _ h
            have hl := length_bytes_at _ _ _ _ hb
            simp only [value.as_bytes, fit_of_length 8 b hl] at hi ⊢
            exact getElem?_bytes_at _ _ _ _ _ hb (by omega)
          · obtain ⟨b, hb, rfl⟩ := from_bytes_ok _ _ _ _ _ h
            have hl := length_bytes_at _ _ _ _ hb
            simp only [value.as_bytes, fit_of_length 16 b hl] at hi ⊢
            exact getElem?_bytes_at _ _ _ _ _ hb (by omega)

/-- When the register is not undefined, a `uint` register has one of the four
sizes, and the bytes `read` takes lie inside the mirror, `read` returns a value. -/
theorem read_returns (T : register_table) (r : registers) (info : register_info)
    (hu : r.is_undefined T info.id = false)
    (hsz : info.format = .uint →
      info.size = 1 ∨ info.size = 2 ∨ info.size = 4 ∨ info.size = 8)
    (hin : info.offset + read_width info ≤ r.data_.length) :
    ∃ x, r.read T info = .ok x := by
  unfold read_width at hin
  by_cases h1 : info.format = .uint
  · rw [if_pos h1] at hin
    exact ⟨_, read_uint T r info _ h1 (hsz h1) hu (bytes_at_eq_some _ _ _ hin)⟩
  · rw [if_neg h1] at hin
    simp only [registers.read, hu, h1, from_bytes]
    split at hin
    · next h2 => simp [h2, bytes_at_eq_some _ _ _ hin]
    · next h2 =>
      split at hin
      · next h3 => simp [h2, h3, bytes_at_eq_some _ _ _ hin]
      · next h3 =>
        split at hin
        · next h4 => simp [h2, h3, h4, bytes_at_eq_some _ _ _ hin]
        · next h4 => simp [h2, h3, h4, bytes_at_eq_some _ _ _ hin]

/-- The mirror after the copy, byte by byte. -/
theorem getElem?_stored_bytes (F : float_model) (bs : List byte) (info : register_info)
    (val : value) (h16 : info.size ≤ 16) (hb : info.offset + info.size ≤ bs.length) (i : Nat) :
    (stored_bytes F bs info val)[i]? =
      if info.offset ≤ i ∧ i < info.offset + info.size then (widen F info val)[i - info.offset]?
      else bs[i]? :=
  getElem?_splice _ _ _ _ _ (by rw [length_widen]; exact h16) hb

/-- C5 (amended): for every descriptor lying inside the mirror (of at most 16 bytes,
the size of the widened object) and every value whose native size does not exceed
the descriptor's size, `write` with `commit = false` returns without any call on the
process object, the mirror then holds the widened bytes at
`[offset, offset + size)`, and a `read` of the descriptor that follows shows them:
every value it returns has those bytes, and it does return a value when the
register is not undefined and, for a `uint` descriptor, the size is 1, 2, 4 or 8
(the bytes `read` takes lying inside the mirror). -/
theorem write_without_commit (F : float_model) (L : user_layout) (T : register_table)
    (r : registers) (info : register_info) (val : value)
    (hs : val.sizeof ≤ info.size) (h16 : info.size ≤ 16)
    (hb : info.offset + info.size ≤ r.data_.length) :
    (r.write F L info val false).status = .ok ∧
      (r.write F L info val false).calls = [] ∧
      (∀ i, i < info.size →
        (r.write F L info val false).self.data_[info.offset + i]? = (widen F info val)[i]?) ∧
      (∀ x, (r.write F L info val false).self.read T info = .ok x →
        ∀ i, i < info.size → i < x.as_bytes.length →
          x.as_bytes[i]? = (widen F info val)[i]?) ∧
      (r.is_undefined T info.id = false →
        (info.format = .uint →
          info.size = 1 ∨ info.size = 2 ∨ info.size = 4 ∨ info.size = 8) →
        info.offset + read_width info ≤ r.data_.length →
        ∃ x, (r.write F L info val false).self.read T info = .ok x) := by
  rw [write_local F L r info val hs h16 hb]
  have hget : ∀ i, i < info.size →
      (stored_bytes F r.data_ info val)[info.offset + i]? = (widen F info val)[i]? := by
    intro i hi
    rw [getElem?_stored_bytes F _ _ _ h16 hb, if_pos (by omega)]
    congr 1
    omega
  refine ⟨rfl, rfl, hget, ?_, ?_⟩
  · intro x hx i hi hlen
    rw [read_ok_bytes T _ info x hx i hlen]
    exact hget i hi
  · intro hu hsz hin
    exact read_returns T _ info hu hsz
      (by simpa only [length_stored_bytes F _ _ _ h16 hb] using hin)

/-- C5 at `eax` of the sample mirror and an `int16` holding -2: no call is made
and the read that follows returns `0xFFFFFFFE`. -/
theorem write_without_commit_witness :
    ((value.i16 (-2)).sizeof ≤ eax.size ∧ eax.size ≤ 16 ∧
        eax.offset + eax.size ≤ sample_registers.data_.length ∧
        sample_registers.is_undefined sample_table eax.id = false ∧
        eax.size = 4 ∧ eax.offset + read_width eax ≤ sample_registers.data_.length) ∧
      (sample_registers.write x86_64_float x86_64_layout eax (.i16 (-2)) false).calls = [] ∧
      (∃ x, (sample_registers.write x86_64_float x86_64_layout eax (.i16 (-2)) false).self.read
        sample_table eax = .ok x) ∧
      (sample_registers.write x86_64_float x86_64_layout eax (.i16 (-2)) false).self.read
        sample_table eax = .ok (.u32 0xFFFFFFFE) :=
  ⟨by decide,
    (write_without_commit x86_64_float x86_64_layout sample_table sample_registers eax
      (.i16 (-2)) (by decide) (by decide) (by decide)).2.1,
    (write_without_commit x86_64_float x86_64_layout sample_table sample_registers eax
      (.i16 (-2)) (by decide) (by decide) (by decide)).2.2.2.2 (by decide)
      (fun _ => by decide) (by decide),
    by decide⟩

/-- C5, as stated, fails: `rax_low3` is a `uint` descriptor of three bytes that is
not undefined; writing a `uint8` to it without commit returns, makes no call and
puts the byte in the mirror, but the read that follows throws the unexpected-size
error instead of showing the bytes written. -/
theorem write_without_commit_unexpected_size :
    ((value.u8 0xAB).sizeof ≤ rax_low3.size ∧
        rax_low3.offset + rax_low3.size ≤ sample_registers.data_.length ∧
        low3_table.register_info_by_id rax_low3.id = rax_low3 ∧
        (sample_registers.write x86_64_float x86_64_layout rax_low3 (.u8 0xAB)
          false).self.is_undefined low3_table rax_low3.id = false) ∧
      (sample_registers.write x86_64_float x86_64_layout rax_low3 (.u8 0xAB) false).status
        = .ok ∧
      (sample_registers.write x86_64_float x86_64_layout rax_low3 (.u8 0xAB) false).calls
        = [] ∧
      (sample_registers.write x86_64_float x86_64_layout rax_low3 (.u8 0xAB)
        false).self.data_[80]? = some ⟨0xAB, by decide⟩ ∧
      (sample_registers.write x86_64_float x86_64_layout rax_low3 (.u8 0xAB) false).self.read
        low3_table rax_low3 = .error unexpected_size := by
  decide

/-! ## C6: the word a committed sub-word write sends -/

/-- C6 (amended): for every descriptor whose type is not `fpr`, of size below 8,
whose bytes lie inside one aligned quadword of the mirror, and every value whose
native size does not exceed the descriptor's size, `write` with `commit = true`
returns after exactly one call: a single-word user-area write at
`offset & ~0b111` (the offset rounded down to a multiple of 8). Byte `j` of the word
sent is byte `j - (offset - aligned)` of the widened value for `j` in
`[offset - aligned, offset - aligned + size)`, and otherwise the byte the mirror
held at `aligned + j` before the write; all `size` bytes copied are in the word. -/
theorem committed_word_merges (F : float_model) (L : user_layout) (r : registers)
    (info : register_info) (val : value)
    (ht : info.type ≠ .fpr) (hlt : info.size < 8) (hq : info.offset % 8 + info.size ≤ 8)
    (hs : val.sizeof ≤ info.size)
    (hb : info.offset + info.size ≤ r.data_.length) (hw : 8 ∣ r.data_.length) :
    ∃ word,
      (r.write F L info val true).status = .ok ∧
      (r.write F L info val true).calls =
        [.write_user_area (aligned_offset info.offset) word r.tid_] ∧
      aligned_offset info.offset = info.offset - info.offset % 8 ∧
      word < 2 ^ 64 ∧
      (∀ j, j < 8 →
        (to_le 8 word)[j]? =
          if info.offset - aligned_offset info.offset ≤ j ∧
              j < info.offset - aligned_offset info.offset + info.size then
            (widen F info val)[j - (info.offset - aligned_offset info.offset)]?
          else r.data_[aligned_offset info.offset + j]?) ∧
      ∀ i, i < info.size →
        (to_le 8 word)[info.offset - aligned_offset info.offset + i]? =
          (widen F info val)[i]? := by
  have h16 : info.size ≤ 16 := by omega
  have hpos := sizeof_pos val
  have hal : aligned_offset info.offset = info.offset - info.offset % 8 := by
    rw [aligned_offset_eq]
    omega
  have hin : aligned_offset info.offset + 8 ≤ (stored_bytes F r.data_ info val).length := by
    rw [length_stored_bytes F _ _ _ h16 hb]
    exact aligned_word_inside _ _ hw (by omega)
  have hbs := bytes_at_eq_some _ _ _ hin
  have hlen := length_bytes_at _ _ _ _ hbs
  rw [write_commit F L r info val hs h16 hb hw, if_neg ht]
  have hmod : info.offset % 8 ≤ info.offset := Nat.mod_le _ _
  have e := to_le_from_le
    (((stored_bytes F r.data_ info val).drop (aligned_offset info.offset)).take 8)
  rw [hlen] at e
  have hmerge : ∀ j, j < 8 →
      (to_le 8 (from_le
        (((stored_bytes F r.data_ info val).drop (aligned_offset info.offset)).take 8)))[j]? =
        if info.offset - aligned_offset info.offset ≤ j ∧
            j < info.offset - aligned_offset info.offset + info.size then
          (widen F info val)[j - (info.offset - aligned_offset info.offset)]?
        else r.data_[aligned_offset info.offset + j]? := by
    intro j hj
    rw [e, getElem?_bytes_at _ _ _ _ _ hbs hj, getElem?_stored_bytes F _ _ _ h16 hb]
    by_cases c : info.offset ≤ aligned_offset info.offset + j ∧
        aligned_offset info.offset + j < info.offset + info.size
    · rw [if_pos c, if_pos (by omega)]
      congr 1
      omega
    · rw [if_neg c, if_neg (by omega)]
  refine ⟨_, rfl, rfl, hal, ?_, hmerge, ?_⟩
  · have h := from_le_lt
      (((stored_bytes F r.data_ info val).drop (aligned_offset info.offset)).take 8)
    rw [hlen] at h
    norm_num at h ⊢
    exact h
  · intro i hi
    rw [hmerge _ (by omega), if_pos (by omega)]
    congr 1
    omega

/-- C6, as stated, fails: a `uint64` does not fit the two bytes of `ax`, so the
committed write terminates and no single-word write is issued. -/
theorem committed_word_oversized :
    (ax.type ≠ .fpr ∧ ax.size < 8 ∧ ax.offset % 8 + ax.size ≤ 8) ∧
      (sample_registers.write x86_64_float x86_64_layout ax (.u64 1) true).status
        = .terminated ∧
      (sample_registers.write x86_64_float x86_64_layout ax (.u64 1) true).calls = [] := by
  decide

/-- C6 (amended) at `ah`, the byte at offset 81, with a `uint8`. -/
theorem committed_word_merges_witness :
    (ah.type ≠ .fpr ∧ ah.size < 8 ∧ ah.offset % 8 + ah.size ≤ 8 ∧
        (value.u8 0xAB).sizeof ≤ ah.size ∧
        ah.offset + ah.size ≤ sample_registers.data_.length ∧
        8 ∣ sample_registers.data_.length) ∧
      ∃ word,
        (sample_registers.write x86_64_float x86_64_layout ah (.u8 0xAB) true).calls =
          [.write_user_area (aligned_offset ah.offset) word sample_registers.tid_] ∧
        (to_le 8 word)[ah.offset - aligned_offset ah.offset + 0]? =
          (widen x86_64_float ah (.u8 0xAB))[0]? :=
  ⟨by decide,
    (committed_word_merges x86_64_float x86_64_layout sample_registers ah (.u8 0xAB)
      (by decide) (by decide) (by decide) (by decide) (by decide) (by decide)).imp
      (fun _ h => ⟨h.2.1, h.2.2.2.2.2 0 (by decide)⟩)⟩

/-- The committed write of `0xAB` to `ah`, evaluated: one call at offset 80 whose
word has `0xAB` as its second byte and the mirror's bytes 80, 82, ..., 87 around. -/
theorem committed_word_example :
    sample_registers.write x86_64_float x86_64_layout ah (.u8 0xAB) true =
      ⟨.ok, (sample_registers.write x86_64_float x86_64_layout ah (.u8 0xAB) false).self,
        [.write_user_area 80 0x575655545352AB50 42]⟩ := by
  rw [write_commit _ _ _ _ _ (by decide) (by decide) (by decide) (by decide), aligned_offset_eq]
  decide

/-! ## C7: `flush` -/

theorem range_eight : List.range 8 = [0, 1, 2, 3, 4, 5, 6, 7] := by decide

/-- The calls of `flush`, in the order the code makes them. -/
theorem flush_eq (T : register_table) (L : user_layout) (r : registers)
    (hd : L.u_debugreg_offset + 64 ≤ r.data_.length) :
    r.flush T L =
      ⟨.ok, r,
        [.write_fprs (r.i387 L) r.tid_, .write_gprs (r.regs L) r.tid_] ++
          [0, 1, 2, 3, 6, 7].map (fun i =>
            proc_call.write_user_area ((T.register_info_by_id T.dr0).offset + 8 * i)
              (r.debug_word L i) r.tid_)⟩ := by
  have hb : ∀ i, i < 8 → bytes_at r.data_ (L.u_debugreg_offset + 8 * i) 8 =
      some ((r.data_.drop (L.u_debugreg_offset + 8 * i)).take 8) :=
    fun i hi => bytes_at_eq_some _ _ _ (by omega)
  have hb0 := hb 0 (by decide)
  rw [Nat.mul_zero, Nat.add_zero] at hb0
  simp [registers.flush, range_eight, flush_debug, registers.debug_word,
    hb0, hb 1 (by decide), hb 2 (by decide), hb 3 (by decide),
    hb 6 (by decide), hb 7 (by decide)]

/-- C7: for every state (whose mirror holds the eight debug slots), `flush` returns
after exactly eight calls on the process object: one bulk GPR write and one bulk FPR
write carrying the mirror's `regs` and `i387` members, and then six single-word
writes, for the debug slots 0, 1, 2, 3, 6, 7 in that order, each at
`dr0.offset + 8 * i` with the word held in slot `i`; no call is made at
`dr0.offset + 32` or `dr0.offset + 40`, and the object is unchanged. -/
theorem flush_calls (T : register_table) (L : user_layout) (r : registers)
    (hd : L.u_debugreg_offset + 64 ≤ r.data_.length) :
    (r.flush T L).status = .ok ∧ (r.flush T L).self = r ∧
      (r.flush T L).calls.length = 8 ∧
      (∃ bulk, bulk.Perm [.write_gprs (r.regs L) r.tid_, .write_fprs (r.i387 L) r.tid_] ∧
        (r.flush T L).calls = bulk ++
          [0, 1, 2, 3, 6, 7].map (fun i =>
            proc_call.write_user_area ((T.register_info_by_id T.dr0).offset + 8 * i)
              (r.debug_word L i) r.tid_)) ∧
      ∀ c ∈ (r.flush T L).calls,
        c.user_area_offset ≠ some ((T.register_info_by_id T.dr0).offset + 32) ∧
        c.user_area_offset ≠ some ((T.register_info_by_id T.dr0).offset + 40) := by
  rw [flush_eq T L r hd]
  refine ⟨rfl, rfl, rfl, ⟨_, List.Perm.swap _ _ _, rfl⟩, ?_⟩
  intro c hc
  simp only [List.map, List.cons_append, List.nil_append, List.mem_cons, List.mem_nil_iff,
    or_false] at hc
  rcases hc with h | h | h | h | h | h | h | h <;> subst h <;>
    simp [proc_call.user_area_offset]

/-- C7 on the sample mirror with the x86-64 layout. -/
theorem flush_calls_witness :
    x86_64_layout.u_debugreg_offset + 64 ≤ sample_registers.data_.length ∧
      (sample_registers.flush sample_table x86_64_layout).calls.length = 8 :=
  ⟨by decide, (flush_calls sample_table x86_64_layout sample_registers (by decide)).2.2.1⟩

/-- The calls of `flush` on the sample mirror, evaluated. -/
theorem flush_example :
    (sample_registers.flush sample_table x86_64_layout).calls.drop 2 =
      [.write_user_area 848 0x666564636261605F 42, .write_user_area 856 0x6E6D6C6B6A696867 42,
        .write_user_area 864 0x767574737271706F 42, .write_user_area 872 0x7E7D7C7B7A797877 42,
        .write_user_area 896 0x969594939291908F 42, .write_user_area 904 0x9E9D9C9B9A999897 42]
    := by
  decide

/-! ## C8: when `write` terminates -/

/-- C8: for every descriptor, value and commit flag, `write` calls `std::terminate`
if and only if the native size of the value's active alternative is strictly greater
than `info.size`; when it does, the object (mirror included) is as before and no
call has been made on the process object. -/
theorem write_terminates_iff (F : float_model) (L : user_layout) (r : registers)
    (info : register_info) (val : value) (commit : Bool) :
    ((r.write F L info val commit).status = .terminated ↔ info.size < val.sizeof) ∧
      ((r.write F L info val commit).status = .terminated →
        (r.write F L info val commit).self = r ∧ (r.write F L info val commit).calls = []) := by
  by_cases hs : val.sizeof ≤ info.size
  · have hne : (r.write F L info val commit).status ≠ .terminated := by
      unfold registers.write
      rw [if_pos hs]
      simp only
      split
      · simp
      · split
        · split
          · simp
          · split <;> simp
        · simp
    exact ⟨⟨fun h => absurd h hne, fun h => absurd hs (by omega)⟩, fun h => absurd h hne⟩
  · have he : r.write F L info val commit = ⟨.terminated, r, []⟩ := by
      unfold registers.write
      rw [if_neg hs]
    rw [he]
    exact ⟨⟨fun _ => by omega, fun _ => rfl⟩, fun _ => ⟨rfl, rfl⟩⟩

/-! ## C9: what a write changes -/

/-- C9: for every descriptor lying inside the mirror (of at most 16 bytes), every
value whose native size does not exceed the descriptor's size and either commit
flag, `write` returns; the mirror after it has the length it had and differs from
the mirror before only inside `[offset, offset + size)`; the list of undefined
registers is unchanged; and the object is the same after a committed write and
after a write without commit. -/
theorem write_frame (F : float_model) (L : user_layout) (r : registers)
    (info : register_info) (val : value) (commit : Bool)
    (hs : val.sizeof ≤ info.size) (h16 : info.size ≤ 16)
    (hb : info.offset + info.size ≤ r.data_.length) (hw : 8 ∣ r.data_.length) :
    (r.write F L info val commit).status = .ok ∧
      (∀ i, ¬ (info.offset ≤ i ∧ i < info.offset + info.size) →
        (r.write F L info val commit).self.data_[i]? = r.data_[i]?) ∧
      (r.write F L info val commit).self.data_.length = r.data_.length ∧
      (r.write F L info val commit).self.undefined_ = r.undefined_ ∧
      (r.write F L info val true).self = (r.write F L info val false).self := by
  obtain ⟨hok, hself⟩ := write_self F L r info val commit hs h16 hb hw
  rw [hself, (write_self F L r info val true hs h16 hb hw).2,
    (write_self F L r info val false hs h16 hb hw).2]
  refine ⟨hok, ?_, length_stored_bytes F _ _ _ h16 hb, rfl, rfl⟩
  intro i hi
  show (stored_bytes F r.data_ info val)[i]? = r.data_[i]?
  rw [getElem?_stored_bytes F _ _ _ h16 hb, if_neg hi]

/-- C9 at `ax` of the sample mirror: the byte of offset 82, just after `ax`, is what
it was. -/
theorem write_frame_witness :
    ((value.u16 0xBEEF).sizeof ≤ ax.size ∧ ax.size ≤ 16 ∧
        ax.offset + ax.size ≤ sample_registers.data_.length ∧
        8 ∣ sample_registers.data_.length) ∧
      (sample_registers.write x86_64_float x86_64_layout ax (.u16 0xBEEF) true).self.data_[82]? =
        sample_registers.data_[82]? :=
  ⟨by decide,
    (write_frame x86_64_float x86_64_layout sample_registers ax (.u16 0xBEEF) true
      (by decide) (by decide) (by decide) (by decide)).2.1 82 (by decide)⟩

/-! ## C10: reading an unsigned register -/

/-- C10: for every descriptor of format `uint` whose register is not undefined,
`read` throws the unexpected-size error if and only if `info.size` is none of 1, 2,
4, 8; otherwise (the descriptor lying inside the mirror) it returns the unsigned
alternative of exactly `info.size` bytes whose value is the little-endian number
formed by the mirror bytes `[offset, offset + size)`. -/
theorem read_uint_register (T : register_table) (r : registers) (info : register_info)
    (hf : info.format = .uint) (hu : r.is_undefined T info.id = false) :
    (r.read T info = .error unexpected_size ↔
        ¬ (info.size = 1 ∨ info.size = 2 ∨ info.size = 4 ∨ info.size = 8)) ∧
      (info.size = 1 ∨ info.size = 2 ∨ info.size = 4 ∨ info.size = 8 →
        info.offset + info.size ≤ r.data_.length →
        r.read T info =
            .ok (unsigned_value info.size
              (from_le ((r.data_.drop info.offset).take info.size))) ∧
          (unsigned_value info.size
              (from_le ((r.data_.drop info.offset).take info.size))).sizeof = info.size ∧
          from_le ((r.data_.drop info.offset).take info.size) < 2 ^ (8 * info.size)) := by
  constructor
  · constructor
    · intro h hsz
      rcases hsz with h1 | h1 | h1 | h1 <;>
        · simp only [registers.read, hu, hf, h1, from_bytes, unexpected_size] at h
          generalize bytes_at r.data_ info.offset _ = o at h
          cases o <;> simp at h
    · intro h
      simp only [not_or] at h
      obtain ⟨h1, h2, h4, h8⟩ := h
      simp only [registers.read, hu, hf, unexpected_size]
      split <;> first | rfl | contradiction
  · intro hsz hb
    have hlen : ((r.data_.drop info.offset).take info.size).length = info.size := by
      rw [List.length_take, List.length_drop]
      omega
    refine ⟨read_uint T r info _ hf hsz hu (bytes_at_eq_some _ _ _ hb), ?_, ?_⟩
    · rcases hsz with h | h | h | h <;> simp [h, unsigned_value, value.sizeof]
    · have h := from_le_lt ((r.data_.drop info.offset).take info.size)
      rw [hlen] at h
      rw [pow_mul]
      exact h

/-- C10 at `eax` of the sample mirror, whose four bytes are 0x50, 0x51, 0x52,
0x53. -/
theorem read_uint_register_witness :
    (eax.format = .uint ∧ sample_registers.is_undefined sample_table eax.id = false) ∧
      sample_registers.read sample_table eax = .ok (.u32 0x53525150) :=
  ⟨by decide,
    ((read_uint_register sample_table sample_registers eax (by decide) (by decide)).2
      (by decide) (by decide)).1⟩

/-- A `uint` descriptor of three bytes is rejected by `read`. -/
theorem read_uint_register_example :
    sample_registers.read sample_table ⟨0, "rax3", .gpr, .uint, 3, 80⟩ =
      .error unexpected_size := by
  decide

/-! ## C11: the call a committed write makes -/

/-- C11: for every `write` with `commit = true` that returns, exactly one call is
made on the process object, chosen by `info.type` alone: for `fpr` it is
`write_fprs` carrying the member `i387` of the mirror as it stands after the copy;
for every other type it is one `write_user_area` at `info.offset & ~0b111`, carrying
the 8-byte word the mirror then holds there. The mirror after the write is the
mirror before with the widened bytes copied in. -/
theorem committed_write_call (F : float_model) (L : user_layout) (r : registers)
    (info : register_info) (val : value)
    (hok : (r.write F L info val true).status = .ok) :
    (r.write F L info val true).calls.length = 1 ∧
      (r.write F L info val true).self.data_ = stored_bytes F r.data_ info val ∧
      (info.type = .fpr →
        (r.write F L info val true).calls =
          [.write_fprs ((r.write F L info val true).self.i387 L) r.tid_]) ∧
      (info.type ≠ .fpr →
        (r.write F L info val true).calls =
          [.write_user_area (aligned_offset info.offset)
            (from_le ((((r.write F L info val true).self.data_).drop
              (aligned_offset info.offset)).take 8)) r.tid_]) := by
  by_cases hs : val.sizeof ≤ info.size
  · simp only [registers.write, hs, if_true] at hok ⊢
    cases hc : copy_into r.data_ info.offset info.size (widen F info val) with
    | none => simp [hc] at hok
    | some bytes =>
      have hbytes : bytes = stored_bytes F r.data_ info val := by
        unfold copy_into at hc
        split at hc
        · cases hc
          rfl
        · cases hc
      subst hbytes
      simp only [hc] at hok ⊢
      by_cases ht : info.type = .fpr
      · simp [ht]
      · simp only [ht, if_false] at hok ⊢
        cases hw : bytes_at (stored_bytes F r.data_ info val) (aligned_offset info.offset) 8 with
        | none => simp [hw] at hok
        | some w =>
          have hw2 : w = ((stored_bytes F r.data_ info val).drop
              (aligned_offset info.offset)).take 8 := by
            unfold bytes_at at hw
            split at hw
            · cases hw
              rfl
            · cases hw
          subst hw2
          simp
  · simp [registers.write, hs] at hok

/-- C11 at `xmm0` (type `fpr`) of the sample mirror: the one call is the bulk
FPR write. -/
theorem committed_write_call_witness :
    (sample_registers.write x86_64_float x86_64_layout xmm0 (.u64 7) true).status = .ok ∧
      (sample_registers.write x86_64_float x86_64_layout xmm0 (.u64 7) true).calls =
        [.write_fprs ((sample_registers.write x86_64_float x86_64_layout xmm0
          (.u64 7) true).self.i387 x86_64_layout) sample_registers.tid_] :=
  ⟨by decide,
    (committed_write_call x86_64_float x86_64_layout sample_registers xmm0 (.u64 7)
      (by decide)).2.2.1 (by decide)⟩

/-! ## C12: what `undefine` changes in the answers of `is_undefined` -/

/-- C12: for every state and every two register ids `a`, `b`: after `undefine(a)`,
`is_undefined(b)` is true if and only if it was true before or the offsets of `b` and
`a` are equal once shifted right by one. So registers at offsets `2k` and `2k + 1`
are conflated (either way round), a register whose shifted offset differs from that
of `a` (in particular one whose offset is 2 or more away) keeps its answer, and a
second `undefine(a)` changes no answer. -/
theorem undefine_is_undefined (T : register_table) (r : registers) (a b : register_id) :
    ((r.undefine T a).is_undefined T b = true ↔
        (r.is_undefined T b = true ∨
          (T.register_info_by_id b).offset >>> 1 = (T.register_info_by_id a).offset >>> 1)) ∧
      (∀ k, ((T.register_info_by_id a).offset = 2 * k ∧
            (T.register_info_by_id b).offset = 2 * k + 1) ∨
          ((T.register_info_by_id a).offset = 2 * k + 1 ∧
            (T.register_info_by_id b).offset = 2 * k) →
        (r.undefine T a).is_undefined T b = true) ∧
      ((T.register_info_by_id b).offset >>> 1 ≠ (T.register_info_by_id a).offset >>> 1 →
        (r.undefine T a).is_undefined T b = r.is_undefined T b) ∧
      ((T.register_info_by_id a).offset + 2 ≤ (T.register_info_by_id b).offset ∨
          (T.register_info_by_id b).offset + 2 ≤ (T.register_info_by_id a).offset →
        (r.undefine T a).is_undefined T b = r.is_undefined T b) ∧
      (∀ c, ((r.undefine T a).undefine T a).is_undefined T c =
        (r.undefine T a).is_undefined T c) := by
  refine ⟨?_, ?_, ?_, ?_, ?_⟩
  · rw [is_undefined_undefine]
    simp
  · intro k hk
    rw [is_undefined_undefine]
    have h : (T.register_info_by_id b).offset >>> 1 = (T.register_info_by_id a).offset >>> 1 := by
      simp only [Nat.shiftRight_eq_div_pow]
      omega
    simp [h]
  · intro hne
    rw [is_undefined_undefine]
    simp [hne]
  · intro hfar
    rw [is_undefined_undefine]
    have hne : (T.register_info_by_id b).offset >>> 1 ≠
        (T.register_info_by_id a).offset >>> 1 := by
      simp only [Nat.shiftRight_eq_div_pow]
      omega
    simp [hne]
  · intro c
    rw [is_undefined_undefine, is_undefined_undefine]
    cases r.is_undefined T c <;> simp

/-- C12 on the sample table: undefining `al` (offset 80) makes `ah` (offset 81)
undefined and leaves `orig_rax` (offset 120) defined. -/
theorem undefine_is_undefined_example :
    (sample_registers.undefine sample_table al.id).is_undefined sample_table ah.id = true ∧
      (sample_registers.undefine sample_table al.id).is_undefined sample_table orig_rax.id
        = false := by
  decide

/-! ## C13: writing a signed integer into an unsigned register -/

theorem twos_lt (n : Nat) (v : Int) : twos n v < 256 ^ n := by
  unfold twos
  have hpos : (0 : Int) < 2 ^ (8 * n) := by positivity
  have h1 : v % (2 ^ (8 * n) : Int) < 2 ^ (8 * n) := Int.emod_lt_of_pos _ hpos
  have h2 : 0 ≤ v % (2 ^ (8 * n) : Int) := Int.emod_nonneg _ (ne_of_gt hpos)
  have h3 : ((256 ^ n : Nat) : Int) = 2 ^ (8 * n) := by
    rw [pow_mul]
    norm_num
  omega

/-- What `widen` yields for a signed integer of `w` bytes and a `uint` register of
`w` bytes or more (sizes 1, 2, 4, 8). -/
theorem take_widen_signed (F : float_model) (info : register_info) (w : Nat) (v : Int)
    (hf : info.format = .uint)
    (hsz : info.size = 1 ∨ info.size = 2 ∨ info.size = 4 ∨ info.size = 8)
    (hw : w = 1 ∨ w = 2 ∨ w = 4 ∨ w = 8) (hws : w ≤ info.size) :
    (widen F info (signed_value w v)).take info.size = to_le info.size (twos info.size v) := by
  rcases hsz with h | h | h | h <;> rcases hw with h1 | h1 | h1 | h1 <;> subst h1 <;>
    first
    | omega
    | (simp only [h, signed_value, widen, value.floating?, value.signed?, hf, if_true,
        value.object_bytes, value.as_bytes]
       rw [take_to_byte128 _ _ (by rw [length_to_le]) (by decide),
         List.take_of_length_le (by rw [length_to_le])])

theorem sizeof_signed_value (w : Nat) (v : Int) (hw : w = 1 ∨ w = 2 ∨ w = 4 ∨ w = 8) :
    (signed_value w v).sizeof = w := by
  rcases hw with h | h | h | h <;> subst h <;> rfl

/-- C13 (amended): for a signed integer source of `w` bytes holding `v` and a
descriptor of format `uint` and size `s` in {1, 2, 4, 8} with `w ≤ s`, lying inside
the mirror, whose register is not undefined: `write` (with either commit flag)
returns and the `read` that follows returns the unsigned `s`-byte value
`v mod 2 ^ (8 * s)`; read as a two's-complement number on `s` bytes this is `v`
again, so the source was sign-extended and nothing was narrowed. -/
theorem signed_write_read (F : float_model) (L : user_layout) (T : register_table)
    (r : registers) (info : register_info) (w : Nat) (v : Int) (commit : Bool)
    (hf : info.format = .uint)
    (hsz : info.size = 1 ∨ info.size = 2 ∨ info.size = 4 ∨ info.size = 8)
    (hw : w = 1 ∨ w = 2 ∨ w = 4 ∨ w = 8) (hws : w ≤ info.size)
    (hv : -(2 ^ (8 * w - 1)) ≤ v ∧ v < 2 ^ (8 * w - 1))
    (hb : info.offset + info.size ≤ r.data_.length) (h8 : 8 ∣ r.data_.length)
    (hu : r.is_undefined T info.id = false) :
    (r.write F L info (signed_value w v) commit).status = .ok ∧
      (r.write F L info (signed_value w v) commit).self.read T info =
        .ok (unsigned_value info.size (v % 2 ^ (8 * info.size)).toNat) ∧
      as_signed info.size (v % 2 ^ (8 * info.size)).toNat = v := by
  have h16 : info.size ≤ 16 := by omega
  have hs : (signed_value w v).sizeof ≤ info.size := by
    rw [sizeof_signed_value w v hw]
    exact hws
  obtain ⟨hok, hself⟩ := write_self F L r info _ commit hs h16 hb h8
  have hbs := bytes_at_stored F r.data_ info (signed_value w v) h16 hb
  rw [take_widen_signed F info w v hf hsz hw hws] at hbs
  refine ⟨hok, ?_, ?_⟩
  · rw [hself, read_uint T _ info _ hf hsz (by rw [is_undefined_with_data]; exact hu) hbs,
      from_le_to_le, Nat.mod_eq_of_lt (twos_lt _ _)]
    rfl
  · rcases hsz with h | h | h | h <;> rcases hw with h1 | h1 | h1 | h1 <;> subst h1 <;>
      first
      | omega
      | (rw [h] at *
         simp only [as_signed]
         norm_num at hv ⊢
         split_ifs <;> omega)

/-- C13, as stated, fails: once `ax` is undefined, writing an `int8` holding -3 to it
succeeds but the read that follows throws instead of returning `0xFFFD`. -/
theorem signed_write_read_undefined :
    ((sample_registers.undefine sample_table ax.id).write x86_64_float x86_64_layout ax
        (signed_value 1 (-3)) false).status = .ok ∧
      ((sample_registers.undefine sample_table ax.id).write x86_64_float x86_64_layout ax
        (signed_value 1 (-3)) false).self.read sample_table ax = .error undefined_register := by
  decide

/-- C13 (amended) at `ax` of the sample mirror and an `int8` holding -3: the read
returns `0xFFFD`. -/
theorem signed_write_read_witness :
    (ax.format = .uint ∧ ax.size = 2 ∧ (1 : Nat) ≤ ax.size ∧
        (-(2 ^ (8 * 1 - 1)) ≤ (-3 : Int) ∧ (-3 : Int) < 2 ^ (8 * 1 - 1)) ∧
        ax.offset + ax.size ≤ sample_registers.data_.length ∧
        8 ∣ sample_registers.data_.length ∧
        sample_registers.is_undefined sample_table ax.id = false) ∧
      (sample_registers.write x86_64_float x86_64_layout ax (signed_value 1 (-3)) true).self.read
        sample_table ax = .ok (unsigned_value ax.size (((-3 : Int) % 2 ^ (8 * ax.size)).toNat)) ∧
      unsigned_value ax.size (((-3 : Int) % 2 ^ (8 * ax.size)).toNat) = .u16 0xFFFD :=
  ⟨by decide,
    (signed_write_read x86_64_float x86_64_layout sample_table sample_registers ax 1 (-3) true
      (by decide) (by decide) (by decide) (by decide) (by decide) (by decide) (by decide)
      (by decide)).2.1,
    by decide⟩

/-! ## C14: the alternative `read` returns -/

theorem length_drop_take (bs : List byte) (off n : Nat) (h : off + n ≤ bs.length) :
    ((bs.drop off).take n).length = n := by
  rw [List.length_take, List.length_drop]
  omega

/-- C14: for every descriptor whose register is not undefined (the bytes `read`
takes lying inside the mirror), the alternative returned is decided by the format,
and for `vector` by the size: `double_float` gives the `double` made of the mirror
bytes `[offset, offset + 8)`; `long_double` gives the `long double` made of the ten
value bytes at `offset`; `vector` with size 8 gives the `byte64` holding the mirror
bytes `[offset, offset + 8)`; `vector` with any other size, the only case left
besides `uint`, gives the `byte128` holding the mirror bytes `[offset, offset + 16)`. -/
theorem read_by_format (T : register_table) (r : registers) (info : register_info)
    (hu : r.is_undefined T info.id = false)
    (hin : info.offset + read_width info ≤ r.data_.length) :
    (info.format = .double_float →
        r.read T info = .ok (.f64 (from_le ((r.data_.drop info.offset).take 8)))) ∧
      (info.format = .long_double →
        r.read T info = .ok (.f80 (from_le ((r.data_.drop info.offset).take 10)))) ∧
      (info.format = .vector ∧ info.size = 8 →
        r.read T info = .ok (.b64 ((r.data_.drop info.offset).take 8)) ∧
          ((r.data_.drop info.offset).take 8).length = 8) ∧
      (info.format ≠ .uint ∧ info.format ≠ .double_float ∧ info.format ≠ .long_double ∧
          ¬ (info.format = .vector ∧ info.size = 8) →
        r.read T info = .ok (.b128 ((r.data_.drop info.offset).take 16)) ∧
          ((r.data_.drop info.offset).take 16).length = 16) := by
  refine ⟨?_, ?_, ?_, ?_⟩
  · intro hf
    have hin8 : info.offset + 8 ≤ r.data_.length := by
      simpa [read_width, hf] using hin
    simp [registers.read, hu, hf, from_bytes, bytes_at_eq_some _ _ _ hin8]
  · intro hf
    have hin16 : info.offset + 16 ≤ r.data_.length := by
      simpa [read_width, hf] using hin
    simp [registers.read, hu, hf, from_bytes, bytes_at_eq_some _ _ _ hin16, List.take_take]
  · intro hf
    have hin8 : info.offset + 8 ≤ r.data_.length := by
      simpa [read_width, hf.1, hf.2] using hin
    refine ⟨?_, length_drop_take _ _ _ hin8⟩
    simp [registers.read, hu, hf.1, hf.2, from_bytes, bytes_at_eq_some _ _ _ hin8]
  · intro hf
    obtain ⟨h1, h2, h3, h4⟩ := hf
    have hin16 : info.offset + 16 ≤ r.data_.length := by
      simpa [read_width, h1, h2, h3, h4] using hin
    refine ⟨?_, length_drop_take _ _ _ hin16⟩
    simp only [registers.read, hu, h1, h2, h3, h4, from_bytes, bytes_at_eq_some _ _ _ hin16]
    simp

/-- C14 at `mm0` (a `vector` of size 8) of the sample mirror. -/
theorem read_by_format_witness :
    (sample_registers.is_undefined sample_table mm0.id = false ∧
        mm0.offset + read_width mm0 ≤ sample_registers.data_.length ∧
        mm0.format = .vector ∧ mm0.size = 8) ∧
      sample_registers.read sample_table mm0 =
        .ok (.b64 ((sample_registers.data_.drop mm0.offset).take 8)) :=
  ⟨by decide,
    ((read_by_format sample_table sample_registers mm0 (by decide) (by decide)).2.2.1
      (by decide)).1⟩

/-- The values `read` returns for `st0`, `mm0` and `xmm0_double` on the sample
mirror, evaluated. -/
theorem read_by_format_example :
    sample_registers.read sample_table st0 = .ok (.f80 0x0E0D0C0B0A0908070605) ∧
      sample_registers.read sample_table mm0 =
        .ok (.b64 [⟨5, by decide⟩, ⟨6, by decide⟩, ⟨7, by decide⟩, ⟨8, by decide⟩,
          ⟨9, by decide⟩, ⟨10, by decide⟩, ⟨11, by decide⟩, ⟨12, by decide⟩]) ∧
      sample_registers.read sample_table xmm0_double = .ok (.f64 0x8C8B8A8988878685) := by
  decide

/-! ## C15: the list of undefined registers only grows -/

theorem write_undefined_ (F : float_model) (L : user_layout) (r : registers)
    (info : register_info) (val : value) (commit : Bool) :
    (r.write F L info val commit).self.undefined_ = r.undefined_ := by
  unfold registers.write
  split
  · simp only
    split
    · rfl
    · split
      · split
        · rfl
        · split <;> rfl
      · rfl
  · rfl

theorem flush_self (T : register_table) (L : user_layout) (r : registers) :
    (r.flush T L).self = r := by
  unfold registers.flush
  simp only
  split <;> rfl

theorem after_undefined_ (F : float_model) (L : user_layout) (T : register_table)
    (r : registers) (op : operation) :
    (∃ id, op = .undefine id ∧
        (r.after F L T op).undefined_ =
          r.undefined_ ++ [(T.register_info_by_id id).offset >>> 1]) ∨
      ((∀ id, op ≠ .undefine id) ∧ (r.after F L T op).undefined_ = r.undefined_) := by
  cases op with
  | read info => exact Or.inr ⟨(fun _ h => by cases h), rfl⟩
  | write info val commit => exact Or.inr ⟨(fun _ h => by cases h), write_undefined_ F L r _ _ _⟩
  | flush => exact Or.inr ⟨(fun _ h => by cases h), by simp [registers.after, flush_self]⟩
  | undefine id => exact Or.inl ⟨id, rfl, rfl⟩

theorem after_all_prefix (F : float_model) (L : user_layout) (T : register_table)
    (r : registers) (ops : List operation) :
    r.undefined_ <+: (registers.after_all F L T r ops).undefined_ := by
  induction ops generalizing r with
  | nil => exact List.prefix_refl _
  | cons op ops ih =>
    have hstep : r.undefined_ <+: (r.after F L T op).undefined_ := by
      rcases after_undefined_ F L T r op with ⟨id, _, h⟩ | ⟨_, h⟩
      · rw [h]
        exact List.prefix_append _ _
      · rw [h]
    exact List.IsPrefix.trans hstep (ih (r.after F L T op))

theorem after_all_same (F : float_model) (L : user_layout) (T : register_table)
    (r : registers) (ops : List operation) (hno : ∀ id, operation.undefine id ∉ ops) :
    (registers.after_all F L T r ops).undefined_ = r.undefined_ := by
  induction ops generalizing r with
  | nil => rfl
  | cons op ops ih =>
    have htail : ∀ id, operation.undefine id ∉ ops :=
      fun id h => hno id (List.mem_cons_of_mem _ h)
    show (registers.after_all F L T (r.after F L T op) ops).undefined_ = r.undefined_
    rw [ih (r.after F L T op) htail]
    rcases after_undefined_ F L T r op with ⟨id, h, _⟩ | ⟨_, h⟩
    · exact absurd (h ▸ List.mem_cons_self _ _) (hno id)
    · exact h

/-- C15: the list of undefined registers only grows, and only through `undefine`:
`read` (a `const` member function), `write` (with either commit flag) and `flush`
leave it as it is; after every sequence of calls the list before is a prefix of the
list after, and is the list after when the sequence has no `undefine`; so a register
that is undefined stays undefined after every sequence of calls. In particular,
writing a value that fits to an undefined register (lying inside the mirror)
returns, and the `read` that follows still throws the undefined-register error. -/
theorem undefined_only_grows (F : float_model) (L : user_layout) (T : register_table)
    (r : registers) :
    (∀ info, r.after F L T (.read info) = r) ∧
      (∀ info val commit, (r.write F L info val commit).self.undefined_ = r.undefined_) ∧
      (r.flush T L).self.undefined_ = r.undefined_ ∧
      (∀ ops, r.undefined_ <+: (registers.after_all F L T r ops).undefined_) ∧
      (∀ ops, (∀ id, operation.undefine id ∉ ops) →
        (registers.after_all F L T r ops).undefined_ = r.undefined_) ∧
      (∀ ops id, r.is_undefined T id = true →
        (registers.after_all F L T r ops).is_undefined T id = true) ∧
      (∀ info val commit, r.is_undefined T info.id = true → val.sizeof ≤ info.size →
        info.size ≤ 16 → info.offset + info.size ≤ r.data_.length → 8 ∣ r.data_.length →
        (r.write F L info val commit).status = .ok ∧
          (r.write F L info val commit).self.read T info = .error undefined_register) := by
  refine ⟨fun _ => rfl, write_undefined_ F L r, by rw [flush_self], after_all_prefix F L T r,
    after_all_same F L T r, ?_, ?_⟩
  · intro ops id hid
    obtain ⟨extra, hex⟩ := after_all_prefix F L T r ops
    simp only [registers.is_undefined, List.contains_eq_any_beq, ← hex, List.any_append] at hid ⊢
    simp [hid]
  · intro info val commit hid hs h16 hb h8
    obtain ⟨hok, hself⟩ := write_self F L r info val commit hs h16 hb h8
    refine ⟨hok, ?_⟩
    have hu : (r.write F L info val commit).self.is_undefined T info.id = true := by
      rw [hself]
      exact hid
    simp [registers.read, hu, undefined_register]

/-- C15 on the sample mirror: `rax`, once undefined, is still undefined after a
write to `eax`, a flush and a read; and writing to `rax` itself returns while the
read that follows throws. -/
theorem undefined_only_grows_witness :
    ((sample_registers.undefine sample_table rax.id).is_undefined sample_table rax.id = true ∧
        (value.u64 1).sizeof ≤ rax.size ∧ rax.size ≤ 16 ∧
        rax.offset + rax.size ≤ (sample_registers.undefine sample_table rax.id).data_.length ∧
        8 ∣ (sample_registers.undefine sample_table rax.id).data_.length) ∧
      (registers.after_all x86_64_float x86_64_layout sample_table
        (sample_registers.undefine sample_table rax.id)
        [.write eax (.u32 9) true, .flush, .read rax]).is_undefined sample_table rax.id = true ∧
      ((sample_registers.undefine sample_table rax.id).write x86_64_float x86_64_layout rax
          (.u64 1) true).status = .ok ∧
      ((sample_registers.undefine sample_table rax.id).write x86_64_float x86_64_layout rax
          (.u64 1) true).self.read sample_table rax = .error undefined_register :=
  ⟨by decide,
    (undefined_only_grows x86_64_float x86_64_layout sample_table
      (sample_registers.undefine sample_table rax.id)).2.2.2.2.2.1 _ _ (by decide),
    (undefined_only_grows x86_64_float x86_64_layout sample_table
      (sample_registers.undefine sample_table rax.id)).2.2.2.2.2.2 rax (.u64 1) true
      (by decide) (by decide) (by decide) (by decide) (by decide)⟩

/-! ## C16: the bytes `read` takes -/

theorem read_uint_other_size (T : register_table) (r : registers) (info : register_info)
    (hf : info.format = .uint) (hu : r.is_undefined T info.id = false)
    (hsz : ¬ (info.size = 1 ∨ info.size = 2 ∨ info.size = 4 ∨ info.size = 8)) :
    r.read T info = .error unexpected_size := by
  simp only [not_or] at hsz
  obtain ⟨h1, h2, h4, h8⟩ := hsz
  simp only [registers.read, hu, hf, unexpected_size]
  split <;> first | rfl | contradiction

/-- C16 (amended): for every descriptor that lies inside the mirror
(`offset + size ≤` its length), whose register is not undefined, and whose size is
at least the number of bytes `read` takes for its format (the size itself for
`uint`; 8 for `double_float` and for a `vector` of size 8; 16 for `long_double` and
for a `vector` of any other size), `read` takes only bytes inside the mirror: it
does not end out of bounds, but returns a value or, for a `uint` register whose size
is none of 1, 2, 4, 8, throws the unexpected-size error. -/
theorem read_inside_mirror (T : register_table) (r : registers) (info : register_info)
    (hb : info.offset + info.size ≤ r.data_.length)
    (hu : r.is_undefined T info.id = false)
    (hwd : read_width info ≤ info.size) :
    r.read T info ≠ .error .out_of_bounds ∧
      ((∃ x, r.read T info = .ok x) ∨ r.read T info = .error unexpected_size) := by
  have hcases : (∃ x, r.read T info = .ok x) ∨ r.read T info = .error unexpected_size := by
    by_cases hsz : info.format = .uint →
        info.size = 1 ∨ info.size = 2 ∨ info.size = 4 ∨ info.size = 8
    · exact Or.inl (read_returns T r info hu hsz (by omega))
    · have hf : info.format = .uint := by
        by_contra hne
        exact hsz (fun h => absurd h hne)
      exact Or.inr (read_uint_other_size T r info hf hu (fun h => hsz (fun _ => h)))
  refine ⟨?_, hcases⟩
  rcases hcases with ⟨x, hx⟩ | hx
  · rw [hx]
    simp
  · rw [hx]
    simp [unexpected_size]

/-- C16, as stated, fails: `tail_vector` lies inside the mirror (908 + 4 = 912) and
is not undefined, but `read` takes 16 bytes for a `vector` whose size is not 8, and
they end 12 bytes after the mirror. -/
theorem read_outside_mirror :
    (tail_vector.offset + tail_vector.size ≤ sample_registers.data_.length ∧
        sample_registers.is_undefined tail_table tail_vector.id = false ∧
        tail_table.register_info_by_id tail_vector.id = tail_vector) ∧
      sample_registers.read tail_table tail_vector = .error .out_of_bounds := by
  decide

/-- C16 (amended) at `st0` of the sample mirror, a `long double` of 16 bytes. -/
theorem read_inside_mirror_witness :
    (st0.offset + st0.size ≤ sample_registers.data_.length ∧
        sample_registers.is_undefined sample_table st0.id = false ∧
        read_width st0 ≤ st0.size) ∧
      sample_registers.read sample_table st0 ≠ .error .out_of_bounds :=
  ⟨by decide,
    (read_inside_mirror sample_table sample_registers st0 (by decide) (by decide)
      (by decide)).1⟩

/-! ## C17: writing a narrower unsigned integer -/

theorem to_le_zero (n : Nat) : to_le n 0 = List.replicate n zero_byte := by
  induction n with
  | zero => rfl
  | succ k ih =>
    simp only [to_le, Nat.zero_div, ih, List.replicate_succ]
    rfl

/-- The `s` bytes of a number that fits `w ≤ s` bytes: its `w` bytes, then zeros. -/
theorem to_le_of_lt (w s v : Nat) (hv : v < 256 ^ w) (hws : w ≤ s) :
    to_le s v = to_le w v ++ List.replicate (s - w) zero_byte := by
  induction w generalizing s v with
  | zero =>
    have h0 : v = 0 := by simpa using hv
    subst h0
    simp [to_le, to_le_zero]
  | succ k ih =>
    obtain ⟨s', rfl⟩ : ∃ s', s = s' + 1 := ⟨s - 1, by omega⟩
    have hdiv : v / 256 < 256 ^ k := by
      rw [pow_succ] at hv
      omega
    simp only [to_le, List.cons_append]
    rw [ih s' (v / 256) hdiv (by omega)]
    congr 3
    omega

/-- What `widen` yields for an unsigned integer of `w` bytes and a register of `w`
bytes or more. -/
theorem take_widen_unsigned (F : float_model) (info : register_info) (w v : Nat)
    (hw : w = 1 ∨ w = 2 ∨ w = 4 ∨ w = 8) (hws : w ≤ info.size) (h16 : info.size ≤ 16)
    (hv : v < 2 ^ (8 * w)) :
    (widen F info (unsigned_value w v)).take info.size = to_le info.size v := by
  have hv2 : v < 256 ^ w := by
    rw [pow_mul] at hv
    exact hv
  have hwide : widen F info (unsigned_value w v) = fit 16 (to_le w v) := by
    rcases hw with h | h | h | h <;> subst h <;> rfl
  rw [hwide, to_le_of_lt w info.size v hv2 hws]
  unfold fit
  rw [List.take_take, Nat.min_eq_left h16, List.take_append_eq_append_take, length_to_le,
    List.take_of_length_le (by rw [length_to_le]; exact hws), List.take_replicate,
    Nat.min_eq_left (by omega)]

theorem sizeof_unsigned_value (w v : Nat) (hw : w = 1 ∨ w = 2 ∨ w = 4 ∨ w = 8) :
    (unsigned_value w v).sizeof = w := by
  rcases hw with h | h | h | h <;> subst h <;> rfl

/-- C17 (amended): for an unsigned source of `w` bytes holding `v` and a descriptor
of format `uint` and size `s` in {1, 2, 4, 8} with `w < s`, lying inside the mirror:
`write` (with either commit flag) returns and has overwritten all `s` bytes of the
register, the low `w` bytes with those of `v` and the `s - w` bytes above with zero;
when the register is not undefined, the `read` that follows returns the unsigned
`s`-byte value equal to `v`. -/
theorem unsigned_write_read_wider (F : float_model) (L : user_layout) (T : register_table)
    (r : registers) (info : register_info) (w v : Nat) (commit : Bool)
    (hf : info.format = .uint)
    (hsz : info.size = 1 ∨ info.size = 2 ∨ info.size = 4 ∨ info.size = 8)
    (hw : w = 1 ∨ w = 2 ∨ w = 4 ∨ w = 8) (hws : w < info.size)
    (hv : v < 2 ^ (8 * w))
    (hb : info.offset + info.size ≤ r.data_.length) (h8 : 8 ∣ r.data_.length) :
    (r.write F L info (unsigned_value w v) commit).status = .ok ∧
      (∀ i, i < w →
        (r.write F L info (unsigned_value w v) commit).self.data_[info.offset + i]? =
          (to_le w v)[i]?) ∧
      (∀ i, w ≤ i → i < info.size →
        (r.write F L info (unsigned_value w v) commit).self.data_[info.offset + i]? =
          some zero_byte) ∧
      (r.is_undefined T info.id = false →
        (r.write F L info (unsigned_value w v) commit).self.read T info =
          .ok (unsigned_value info.size v)) := by
  have h16 : info.size ≤ 16 := by omega
  have hs : (unsigned_value w v).sizeof ≤ info.size := by
    rw [sizeof_unsigned_value w v hw]
    omega
  have hv2 : v < 256 ^ w := by
    rw [pow_mul] at hv
    exact hv
  obtain ⟨hok, hself⟩ := write_self F L r info _ commit hs h16 hb h8
  have htake := take_widen_unsigned F info w v hw (by omega) h16 hv
  have hbs := bytes_at_stored F r.data_ info (unsigned_value w v) h16 hb
  rw [htake] at hbs
  have hget : ∀ i, i < info.size →
      (stored_bytes F r.data_ info (unsigned_value w v))[info.offset + i]? =
        (to_le w v ++ List.replicate (info.size - w) zero_byte)[i]? := by
    intro i hi
    rw [← getElem?_bytes_at _ _ _ _ _ hbs hi, to_le_of_lt w info.size v hv2 (by omega)]
  rw [hself]
  refine ⟨hok, ?_, ?_, ?_⟩
  · intro i hi
    show (stored_bytes F r.data_ info (unsigned_value w v))[info.offset + i]? = _
    rw [hget i (by omega), List.getElem?_append_left (by rw [length_to_le]; exact hi)]
  · intro i hwi hi
    show (stored_bytes F r.data_ info (unsigned_value w v))[info.offset + i]? = _
    rw [hget i hi, List.getElem?_append_right (by rw [length_to_le]; exact hwi), length_to_le,
      List.getElem?_replicate, if_pos (by omega)]
  · intro hu
    rw [read_uint T _ info _ hf hsz (by rw [is_undefined_with_data]; exact hu) hbs,
      from_le_to_le]
    have hlt : v < 256 ^ info.size :=
      lt_of_lt_of_le hv2 (Nat.pow_le_pow_right (by decide) (by omega))
    rw [Nat.mod_eq_of_lt hlt]

/-- C17, as stated, fails: once `rax` is undefined, writing a `uint8` to it succeeds
and fills its eight bytes, but the read that follows throws instead of returning
the value. -/
theorem unsigned_write_read_wider_undefined :
    ((sample_registers.undefine sample_table rax.id).write x86_64_float x86_64_layout rax
        (unsigned_value 1 0x7F) false).status = .ok ∧
      ((sample_registers.undefine sample_table rax.id).write x86_64_float x86_64_layout rax
        (unsigned_value 1 0x7F) false).self.read sample_table rax
          = .error undefined_register := by
  decide

/-- C17 (amended) at `rax` of the sample mirror and a `uint16` holding `0xBEEF`:
the read returns the `uint64` `0xBEEF`, the six bytes above being zero. -/
theorem unsigned_write_read_wider_witness :
    (rax.format = .uint ∧ rax.size = 8 ∧ 2 < rax.size ∧ 0xBEEF < 2 ^ (8 * 2) ∧
        rax.offset + rax.size ≤ sample_registers.data_.length ∧
        8 ∣ sample_registers.data_.length ∧
        sample_registers.is_undefined sample_table rax.id = false) ∧
      (sample_registers.write x86_64_float x86_64_layout rax (unsigned_value 2 0xBEEF)
        true).self.read sample_table rax = .ok (unsigned_value rax.size 0xBEEF) ∧
      unsigned_value rax.size 0xBEEF = .u64 0xBEEF :=
  ⟨by decide,
    (unsigned_write_read_wider x86_64_float x86_64_layout sample_table sample_registers rax
      2 0xBEEF true (by decide) (by decide) (by decide) (by decide) (by decide) (by decide)
      (by decide)).2.2.2 (by decide),
    by decide⟩

end sdb
